import Mathlib

/-!
Verification of the plan-graph builder of `jql-to-plan`
(`src/internal/omniplan/serializer.go`, types from the `omniplan` package,
ticket shape from `src/internal/jira/client.go`).

The Go code is embedded shallowly:

* Go slices become `List`, Go structs become structures whose fields default
  to the Go zero value.
* Go `map` values become association lists (`List (String × _)`) with
  `mapGet` / `mapPut`; `mapPut` replaces an existing binding in place, like a
  Go map store.  A Go `for k, v := range m` loop visits every key exactly
  once but in an unspecified, run-dependent order, so every function that
  embeds such a loop takes the visiting order as an explicit list parameter;
  theorems quantify over all orders that are permutations of the map's keys.
* The process-wide atomic counter `idCounter` is threaded explicitly as a
  `Nat` state; `idCounter.Add(1)` becomes `c + 1` (returning the new value).
* `fmt.Sprintf("t%d", n)` etc. become `"t" ++ natToDec n` where `natToDec`
  is ordinary decimal rendering.
* `float64 EffortDays` is modelled as an exact rational; Go's `int64(x)`
  conversion (truncation toward zero) becomes `ratTruncToZero`.  At every
  concrete input used below the float computation `EffortDays * 8 * 3600`
  and its `int64` truncation agree with the exact rational semantics.
* `fmt.Printf` warnings become an emitted list of
  (ticket key, missing dependency key) pairs.
-/

/-! ### Decimal rendering of the id counter (Go `%d` for a non-negative value) -/

/-- The character of a single decimal digit. -/
def decDigitChar (d : Nat) : Char :=
  if d = 0 then '0' else if d = 1 then '1' else if d = 2 then '2'
  else if d = 3 then '3' else if d = 4 then '4' else if d = 5 then '5'
  else if d = 6 then '6' else if d = 7 then '7' else if d = 8 then '8'
  else if d = 9 then '9' else '*'

/-- Digit characters of `n`, most significant first; `fuel` bounds recursion depth. -/
def decDigitsAux : Nat → Nat → List Char
  | 0, _ => []
  | _ + 1, 0 => []
  | fuel + 1, n + 1 => decDigitsAux fuel ((n + 1) / 10) ++ [decDigitChar ((n + 1) % 10)]

/-- Decimal rendering of a natural number, as produced by Go's `%d` verb. -/
def natToDec (n : Nat) : String :=
  if n = 0 then "0" else ⟨decDigitsAux n n⟩

/-- Numeric value of a digit character (10 for a non-digit). -/
def decCharVal (c : Char) : Nat :=
  if c = '0' then 0 else if c = '1' then 1 else if c = '2' then 2
  else if c = '3' then 3 else if c = '4' then 4 else if c = '5' then 5
  else if c = '6' then 6 else if c = '7' then 7 else if c = '8' then 8
  else if c = '9' then 9 else 10

/-- Value of a big-endian digit-character string. -/
def decValAux : List Char → Nat
  | [] => 0
  | c :: cs => decCharVal c * 10 ^ cs.length + decValAux cs

theorem decValAux_append (xs : List Char) (c : Char) :
    decValAux (xs ++ [c]) = 10 * decValAux xs + decCharVal c := by
  induction xs with
  | nil => simp [decValAux]
  | cons c' xs ih =>
      show decValAux (c' :: (xs ++ [c])) = _
      rw [decValAux, ih, decValAux]
      simp only [List.length_append, List.length_cons, List.length_nil]
      ring

theorem decCharVal_decDigitChar {d : Nat} (hd : d < 10) :
    decCharVal (decDigitChar d) = d := by
  interval_cases d <;> decide

theorem decValAux_decDigitsAux : ∀ fuel n, n ≤ fuel → decValAux (decDigitsAux fuel n) = n := by
  intro fuel
  induction fuel with
  | zero => intro n hn; interval_cases n; simp [decDigitsAux, decValAux]
  | succ f ih =>
      intro n hn
      match n with
      | 0 => simp [decDigitsAux, decValAux]
      | m + 1 =>
          have hdiv : (m + 1) / 10 ≤ f := by
            have := Nat.div_lt_self (Nat.succ_pos m) (by norm_num : 1 < 10)
            omega
          rw [decDigitsAux, decValAux_append, ih _ hdiv,
            decCharVal_decDigitChar (Nat.mod_lt _ (by norm_num))]
          omega

theorem decValAux_natToDec (n : Nat) : decValAux (natToDec n).data = n := by
  unfold natToDec
  split
  · subst n; decide
  · exact decValAux_decDigitsAux n n le_rfl

theorem natToDec_injective : Function.Injective natToDec := by
  intro m n h
  have hm := decValAux_natToDec m
  rw [h, decValAux_natToDec n] at hm
  exact hm.symm

theorem decDigitChar_ne_dash (d : Nat) : decDigitChar d ≠ '-' := by
  unfold decDigitChar
  repeat' split
  all_goals decide

theorem dash_not_mem_decDigitsAux : ∀ fuel n, '-' ∉ decDigitsAux fuel n := by
  intro fuel
  induction fuel with
  | zero => intro n; simp [decDigitsAux]
  | succ f ih =>
      intro n
      match n with
      | 0 => simp [decDigitsAux]
      | m + 1 =>
          rw [decDigitsAux]
          intro hmem
          rcases List.mem_append.1 hmem with h | h
          · exact ih _ h
          · rcases List.mem_singleton.1 h with h
            exact decDigitChar_ne_dash _ h.symm

theorem dash_not_mem_natToDec (n : Nat) : '-' ∉ (natToDec n).data := by
  unfold natToDec
  split
  · decide
  · exact dash_not_mem_decDigitsAux n n

/-! ### Rational truncation (Go `int64(x)` on a `float64`) -/

/-- Conversion of a rational to an integer by truncation toward zero, the
semantics of Go's `int64(x)` conversion from `float64` (for in-range values). -/
def ratTruncToZero (q : ℚ) : ℤ :=
  if 0 ≤ q then ⌊q⌋ else -⌊-q⌋

/-! ### Data model

Mirrors the Go structs of the `omniplan` package and `jira.Ticket`.
Field defaults are the Go zero values.  The `Note` / `NewNote` machinery is
never touched by the builder and is omitted.  The struct named `Scenario` in
the source is called `ScenarioDoc` here. -/

/-- `jira.Ticket` (src/internal/jira/client.go). -/
structure Ticket where
  key : String := ""
  summary : String := ""
  link : String := ""
  assignee : String := ""
  status : String := ""
  effortDays : ℚ := 0
  epicLink : String := ""
  dependencyKeys : List String := []
deriving DecidableEq

/-- `omniplan.Reference`. -/
structure Reference where
  idRef : String := ""
deriving DecidableEq

/-- `omniplan.PrerequisiteTask`. -/
structure PrerequisiteTask where
  idRef : String := ""
  kind : String := ""
deriving DecidableEq

/-- `omniplan.UserDataItem`. -/
structure UserDataItem where
  key : String := ""
  value : String := ""
deriving DecidableEq

/-- `omniplan.UserData`. -/
structure UserData where
  items : List UserDataItem := []
deriving DecidableEq

/-- `omniplan.PlanTask` (the unused `Note` field is omitted). -/
structure PlanTask where
  id : String := ""
  title : String := ""
  type : String := ""
  leveledStart : String := ""
  effort : ℤ := 0
  recalculate : String := ""
  staticCost : ℤ := 0
  childTasks : List Reference := []
  userData : Option UserData := none
  prerequisites : List PrerequisiteTask := []
  assignments : List Reference := []
deriving DecidableEq

/-- `omniplan.Resource`. -/
structure Resource where
  id : String := ""
  name : String := ""
  type : String := ""
  childResources : List Reference := []
deriving DecidableEq

/-- `omniplan.Color` (sRGB components as exact rationals). -/
structure Color where
  space : String := ""
  r : ℚ := 0
  g : ℚ := 0
  b : ℚ := 0
deriving DecidableEq

/-- `omniplan.CriticalPath`. -/
structure CriticalPath where
  root : String := ""
  enabled : String := ""
  resources : String := ""
  color : Option Color := none
deriving DecidableEq

/-- `omniplan.Scenario`, the root element of the document. -/
structure ScenarioDoc where
  xmlns : String := ""
  opns : String := ""
  id : String := ""
  granularity : String := ""
  topResource : Reference := {}
  resources : List Resource := []
  topTask : Reference := {}
  tasks : List PlanTask := []
  criticalPaths : List CriticalPath := []
deriving DecidableEq

/-- The OmniPlan v2 XML namespace constant. -/
def Namespace : String := "http://www.omnigroup.com/namespace/OmniPlan/v2"

/-- `omniplan.Serializer` configuration. -/
structure Serializer where
  projectName : String := ""
  groupByEpic : Bool := false
  milestoneDone : Bool := false
deriving DecidableEq

/-! ### Go maps as association lists -/

/-- Go map lookup: the value bound to `k`, if any.  Keys are unique in every
map built below, so first-match lookup is exact. -/
def mapGet {α : Type} : List (String × α) → String → Option α
  | [], _ => none
  | (k', v) :: rest, k => if k' = k then some v else mapGet rest k

/-- Go map store `m[k] = v`: replaces an existing binding, else appends. -/
def mapPut {α : Type} : List (String × α) → String → α → List (String × α)
  | [], k, v => [(k, v)]
  | (k', v') :: rest, k, v =>
      if k' = k then (k, v) :: rest else (k', v') :: mapPut rest k v

/-- The keys of a map, in insertion order. -/
def mapKeys {α : Type} (m : List (String × α)) : List String := m.map Prod.fst

/-- `GenerateID` (src: the `omniplan` package types file): returns the fresh
id string and the new counter value. -/
def GenerateID (counter : Nat) : String × Nat :=
  ("gen" ++ natToDec (counter + 1), counter + 1)

/-! ### The builder, pass by pass

`buildScenarioDoc` below embeds `(*Serializer).buildScenario`;
`buildTasksFromTickets` embeds the Go function of the same name.  Each block
of the Go function bodies is a named recursive pass so theorems can speak
about the intermediate states.  The two `for … range` loops over Go maps
(`epicToChildRefs` at the epic-materialization step and `epicMilestones` in
the Done-milestone step) receive their visiting orders as the parameters
`epicOrder` and `msOrder`. -/

/-- Effort in seconds of a ticket's leaf task (serializer.go lines 146-151):
`days * 8 * 3600`, truncated by Go's `int64` conversion, defaulting to
28800 (8 hours) when no positive effort is given. -/
def effortSeconds (t : Ticket) : ℤ :=
  if t.effortDays > 0 then ratTruncToZero (t.effortDays * 8 * 3600) else 28800

/-- Accumulator of the assignee-resource loop (serializer.go lines 55-73). -/
structure ResAcc where
  a2r : List (String × String) := []
  staff : List Resource := []
  crefs : List Reference := []
  counter : Nat := 0
deriving DecidableEq

/-- The assignee-resource loop: one `Staff` resource per first occurrence of
a non-empty assignee, with id `r<counter>`. -/
def resourcePass : List Ticket → ResAcc → ResAcc
  | [], acc => acc
  | t :: ts, acc =>
      if t.assignee ≠ "" then
        if (mapGet acc.a2r t.assignee).isSome then
          resourcePass ts acc
        else
          let rid := "r" ++ natToDec (acc.counter + 1)
          resourcePass ts
            { a2r := mapPut acc.a2r t.assignee rid
              staff := acc.staff ++ [{ id := rid, name := t.assignee, type := "Staff" }]
              crefs := acc.crefs ++ [{ idRef := rid }]
              counter := acc.counter + 1 }
      else
        resourcePass ts acc

/-- The leaf task built for one ticket (serializer.go lines 143-173),
given its allocated task id. -/
def leafTaskOf (tid : String) (a2r : List (String × String)) (t : Ticket) : PlanTask :=
  { id := tid
    title := t.summary
    effort := effortSeconds t
    recalculate := "duration"
    userData := some { items := [{ key := "Jira Key", value := t.key },
                                 { key := "Jira Link", value := t.link },
                                 { key := "Jira Status", value := t.status }] }
    assignments :=
      if t.assignee ≠ "" then
        match mapGet a2r t.assignee with
        | some rid => [{ idRef := rid }]
        | none => []
      else [] }

/-- Accumulator of the first (leaf-task) pass (serializer.go lines 128-184). -/
structure LeafAcc where
  keyToTask : List (String × String) := []
  taskPtrs : List PlanTask := []
  epicChildren : List (String × List Reference) := []
  refs : List Reference := []
  counter : Nat := 0
deriving DecidableEq

/-- First pass: allocate a task per ticket (id `t<counter>`), record
`ticket.Key → task id`, and route the task reference either into its epic's
pending-children list (when grouping) or into the top-level list. -/
def leafPass (gbe : Bool) (a2r : List (String × String)) :
    List Ticket → LeafAcc → LeafAcc
  | [], acc => acc
  | t :: ts, acc =>
      let tid := "t" ++ natToDec (acc.counter + 1)
      let task := leafTaskOf tid a2r t
      let acc' : LeafAcc :=
        { keyToTask := mapPut acc.keyToTask t.key tid
          taskPtrs := acc.taskPtrs ++ [task]
          epicChildren := acc.epicChildren
          refs := acc.refs
          counter := acc.counter + 1 }
      if gbe ∧ t.epicLink ≠ "" then
        leafPass gbe a2r ts
          { acc' with epicChildren := (mapPut acc'.epicChildren t.epicLink
              (((mapGet acc'.epicChildren t.epicLink).getD []) ++ [{ idRef := tid }])) }
      else
        leafPass gbe a2r ts { acc' with refs := acc'.refs ++ [{ idRef := tid }] }

/-- Epic details used when materializing an epic `k`
(serializer.go lines 189-197): summary, link, status, with the key itself as
summary fallback when `k` is absent from the epic map. -/
def epicInfo (epics : List (String × Ticket)) (k : String) : String × String × String :=
  match mapGet epics k with
  | some e => (e.summary, e.link, e.status)
  | none => (k, "", "")

/-- The group task materialized for epic `k` when the counter is `c`
(serializer.go lines 199-215); its id is `t<c+1>`. -/
def epicGroupTask (epics : List (String × Ticket))
    (children : List (String × List Reference)) (k : String) (c : Nat) : PlanTask :=
  { id := "t" ++ natToDec (c + 1)
    title := (epicInfo epics k).1
    type := "group"
    recalculate := "duration"
    childTasks := (mapGet children k).getD []
    userData := some { items := [{ key := "Jira Key", value := k },
                                 { key := "Jira Link", value := (epicInfo epics k).2.1 },
                                 { key := "Jira Status", value := (epicInfo epics k).2.2 }] } }

/-- The milestone task materialized right after epic `k`'s group task
(serializer.go lines 220-231); its id is `t<c+2>`, its sole prerequisite the
group's id `t<c+1>`. -/
def epicMsTask (epics : List (String × Ticket)) (k : String) (c : Nat) : PlanTask :=
  { id := "t" ++ natToDec (c + 2)
    title := (epicInfo epics k).1 ++ " Done"
    type := "milestone"
    recalculate := "duration"
    prerequisites := [{ idRef := "t" ++ natToDec (c + 1) }] }

/-- Accumulator of the epic-materialization loop
(serializer.go lines 186-236). -/
structure EpicAcc where
  tasks : List PlanTask := []
  refs : List Reference := []
  milestonesM : List (String × PlanTask) := []
  counter : Nat := 0
deriving DecidableEq

/-- The epic-materialization loop, visiting the keys of `epicToChildRefs` in
the order `ks` (a Go map range order).  The write-only `epicTasks` map of the
source is not recorded. -/
def epicPass (epics : List (String × Ticket))
    (children : List (String × List Reference)) :
    List String → EpicAcc → EpicAcc
  | [], acc => acc
  | k :: ks, acc =>
      let group := epicGroupTask epics children k acc.counter
      let ms := epicMsTask epics k acc.counter
      epicPass epics children ks
        { tasks := acc.tasks ++ [group, ms]
          refs := acc.refs ++ [{ idRef := group.id }, { idRef := ms.id }]
          milestonesM := mapPut acc.milestonesM k ms
          counter := acc.counter + 2 }

/-- Prerequisites collected for the final "Done" milestone
(serializer.go lines 240-262): when grouping, the epic milestones visited in
the map range order `msOrder`; otherwise every `"milestone"`-typed task in
the task list built so far. -/
def donePrereqsOf (gbe : Bool) (msOrder : List String)
    (ems : List (String × PlanTask)) (tasksSoFar : List PlanTask) : List PrerequisiteTask :=
  if gbe then
    msOrder.filterMap fun k => (mapGet ems k).map fun t => { idRef := t.id }
  else
    (tasksSoFar.filter fun t => t.type = "milestone").map fun t => { idRef := t.id }

/-- The "Done"-milestone block (serializer.go lines 238-277): the extra
tasks, extra top-level references, and the counter after it. -/
def doneBlock (md gbe : Bool) (msOrder : List String)
    (ems : List (String × PlanTask)) (tasksSoFar : List PlanTask) (c : Nat) :
    List PlanTask × List Reference × Nat :=
  if md then
    let dp := donePrereqsOf gbe msOrder ems tasksSoFar
    if dp ≠ [] then
      let did := "t" ++ natToDec (c + 1)
      ([{ id := did, title := "Done", type := "milestone",
          recalculate := "duration", prerequisites := dp }],
       [{ idRef := did }], c + 1)
    else ([], [], c)
  else ([], [], c)

/-- Second pass (serializer.go lines 279-294): resolve each ticket's
dependency keys against the key→task-id map, appending one prerequisite per
resolvable key to the ticket's own leaf task and emitting one
(ticket key, missing key) warning per unresolvable key. -/
def resolveDeps (km : List (String × String)) :
    List Ticket → List PlanTask → List PlanTask × List (String × String)
  | t :: ts, task :: rest =>
      let newPrs : List PrerequisiteTask :=
        t.dependencyKeys.filterMap fun d =>
          (mapGet km d).map fun tid => { idRef := tid }
      let warns : List (String × String) :=
        (t.dependencyKeys.filter fun d => (mapGet km d).isNone).map fun d => (t.key, d)
      let rec' := resolveDeps km ts rest
      ({ task with prerequisites := task.prerequisites ++ newPrs } :: rec'.1,
       warns ++ rec'.2)
  | _, _ => ([], [])

/-- The `leafPass` accumulator at entry (all maps/lists empty, counter `c`). -/
def leafAcc0 (c : Nat) : LeafAcc := { counter := c }

/-- The first pass over `tickets` starting from counter `c`. -/
def pass1 (gbe : Bool) (a2r : List (String × String))
    (tickets : List Ticket) (c : Nat) : LeafAcc :=
  leafPass gbe a2r tickets (leafAcc0 c)

/-- The epic-materialization stage, skipped entirely when not grouping
(serializer.go line 187). -/
def epicStage (gbe : Bool) (epics : List (String × Ticket))
    (children : List (String × List Reference)) (epicOrder : List String)
    (refs : List Reference) (c : Nat) : EpicAcc :=
  if gbe then epicPass epics children epicOrder { refs := refs, counter := c }
  else { refs := refs, counter := c }

/-- `buildTasksFromTickets` (serializer.go lines 126-302): returns the task
list, the top-level references, the warning list, and the final counter. -/
def buildTasksFromTickets (s : Serializer) (tickets : List Ticket)
    (a2r : List (String × String)) (epics : List (String × Ticket))
    (epicOrder msOrder : List String) (c : Nat) :
    List PlanTask × List Reference × List (String × String) × Nat :=
  let p1 := pass1 s.groupByEpic a2r tickets c
  let ep := epicStage s.groupByEpic epics p1.epicChildren epicOrder p1.refs p1.counter
  let db := doneBlock s.milestoneDone s.groupByEpic msOrder ep.milestonesM ep.tasks ep.counter
  let ld := resolveDeps p1.keyToTask tickets p1.taskPtrs
  (ep.tasks ++ db.1 ++ ld.1, ep.refs ++ db.2.1, ld.2, db.2.2)

/-- `buildScenario` (serializer.go lines 49-124): the full document, plus the
warning list and the final counter state. -/
def buildScenarioDoc (s : Serializer) (tickets : List Ticket)
    (epics : List (String × Ticket)) (epicOrder msOrder : List String)
    (c : Nat) : ScenarioDoc × List (String × String) × Nat :=
  let scenarioID := (GenerateID c).1
  let r := resourcePass tickets { counter := (GenerateID c).2 }
  let bt := buildTasksFromTickets s tickets r.a2r epics epicOrder msOrder r.counter
  let topTask : PlanTask :=
    { id := "t-1", type := "group", recalculate := "duration", childTasks := bt.2.1 }
  let projectResource : Resource :=
    { id := "r-1", name := s.projectName, type := "Project", childResources := r.crefs }
  ({ xmlns := Namespace
     opns := Namespace
     id := scenarioID
     granularity := "days"
     topResource := { idRef := "r-1" }
     resources := projectResource :: r.staff
     topTask := { idRef := "t-1" }
     tasks := topTask :: bt.1
     criticalPaths := [{ root := "-1", enabled := "false", resources := "false",
                         color := some { space := "srgb", r := 1, g := 1/2, b := 1/2 } }] },
   bt.2.2.1, bt.2.2.2)

/-- A Go `for … range` order over a map is any permutation of its keys.
`epicOrder` ranges over `epicToChildRefs`; `msOrder` ranges over
`epicMilestones`, whose key set always equals `epicOrder`'s elements. -/
def ValidOrders (s : Serializer) (tickets : List Ticket)
    (a2r : List (String × String)) (epicOrder msOrder : List String)
    (c : Nat) : Prop :=
  epicOrder.Perm (mapKeys (pass1 s.groupByEpic a2r tickets c).epicChildren) ∧
  msOrder.Perm epicOrder

instance (s : Serializer) (tickets : List Ticket) (a2r : List (String × String))
    (epicOrder msOrder : List String) (c : Nat) :
    Decidable (ValidOrders s tickets a2r epicOrder msOrder c) := by
  unfold ValidOrders; infer_instance

/-! ### Identifier strings: injectivity and disjointness -/

theorem prefixed_dec_inj {p : String} {m n : Nat}
    (h : p ++ natToDec m = p ++ natToDec n) : m = n := by
  have hd : p.data ++ (natToDec m).data = p.data ++ (natToDec n).data := by
    rw [← String.data_append, ← String.data_append, h]
  exact natToDec_injective (String.ext (List.append_cancel_left hd))

theorem prefixed_dec_ne_head {p q : String} {m n : Nat} {c d : Char}
    (hp : p.data = [c]) (hq : q.data = [d]) (hcd : c ≠ d) :
    p ++ natToDec m ≠ q ++ natToDec n := by
  intro h
  have hd := congrArg String.data h
  rw [String.data_append, String.data_append, hp, hq] at hd
  exact hcd (List.head_eq_of_cons_eq hd)

theorem tid_ne_rid (m n : Nat) : "t" ++ natToDec m ≠ "r" ++ natToDec n :=
  prefixed_dec_ne_head rfl rfl (by decide)

theorem tid_ne_root (n : Nat) : "t" ++ natToDec n ≠ "t-1" := by
  intro h
  have hd := congrArg String.data h
  rw [String.data_append] at hd
  have : (natToDec n).data = ['-', '1'] := by
    have : ('t' : Char) :: (natToDec n).data = 't' :: ['-', '1'] := hd
    exact List.tail_eq_of_cons_eq this
  exact dash_not_mem_natToDec n (this ▸ List.mem_cons_self '-' ['1'])

theorem rid_ne_root (n : Nat) : "r" ++ natToDec n ≠ "r-1" := by
  intro h
  have hd := congrArg String.data h
  rw [String.data_append] at hd
  have : (natToDec n).data = ['-', '1'] := by
    have : ('r' : Char) :: (natToDec n).data = 'r' :: ['-', '1'] := hd
    exact List.tail_eq_of_cons_eq this
  exact dash_not_mem_natToDec n (this ▸ List.mem_cons_self '-' ['1'])

theorem gen_ne_tid (m n : Nat) : "gen" ++ natToDec m ≠ "t" ++ natToDec n := by
  intro h
  have hd := congrArg String.data h
  rw [String.data_append, String.data_append] at hd
  exact absurd (List.head_eq_of_cons_eq hd) (by decide)

theorem gen_ne_rid (m n : Nat) : "gen" ++ natToDec m ≠ "r" ++ natToDec n := by
  intro h
  have hd := congrArg String.data h
  rw [String.data_append, String.data_append] at hd
  exact absurd (List.head_eq_of_cons_eq hd) (by decide)

theorem gen_ne_troot (m : Nat) : "gen" ++ natToDec m ≠ "t-1" := by
  intro h
  have hd := congrArg String.data h
  rw [String.data_append] at hd
  exact absurd (List.head_eq_of_cons_eq hd) (by decide)

theorem gen_ne_rroot (m : Nat) : "gen" ++ natToDec m ≠ "r-1" := by
  intro h
  have hd := congrArg String.data h
  rw [String.data_append] at hd
  exact absurd (List.head_eq_of_cons_eq hd) (by decide)

/-! ### Association-list map lemmas -/

theorem mapGet_mapPut_self {α : Type} (m : List (String × α)) (k : String) (v : α) :
    mapGet (mapPut m k v) k = some v := by
  induction m with
  | nil => simp [mapPut, mapGet]
  | cons p rest ih =>
      obtain ⟨k', v'⟩ := p
      by_cases h : k' = k <;> simp [mapPut, mapGet, h, ih]

theorem mapGet_mapPut_ne {α : Type} (m : List (String × α)) {k k' : String} (v : α)
    (h : k ≠ k') : mapGet (mapPut m k v) k' = mapGet m k' := by
  induction m with
  | nil => simp [mapPut, mapGet, h]
  | cons p rest ih =>
      obtain ⟨k₀, v₀⟩ := p
      by_cases h0 : k₀ = k
      · subst h0; simp [mapPut, mapGet, h]
      · simp [mapPut, h0, mapGet, ih]

theorem mapGet_isSome_iff_mem_keys {α : Type} (m : List (String × α)) (k : String) :
    (mapGet m k).isSome ↔ k ∈ mapKeys m := by
  induction m with
  | nil => simp [mapGet, mapKeys]
  | cons p rest ih =>
      obtain ⟨k', v'⟩ := p
      by_cases h : k' = k
      · subst h; simp [mapGet, mapKeys]
      · simp only [mapGet, if_neg h, mapKeys, List.map_cons, List.mem_cons, ih]
        constructor
        · intro hm; exact Or.inr hm
        · rintro (hm | hm)
          · exact absurd hm.symm h
          · exact hm

theorem mapKeys_mapPut_mem {α : Type} (m : List (String × α)) (k : String) (v : α)
    (h : k ∈ mapKeys m) : mapKeys (mapPut m k v) = mapKeys m := by
  induction m with
  | nil => simp [mapKeys] at h
  | cons p rest ih =>
      obtain ⟨k', v'⟩ := p
      by_cases hk : k' = k
      · subst hk; simp [mapPut, mapKeys]
      · simp only [mapKeys, List.map_cons, List.mem_cons] at h
        rcases h with h | h
        · exact absurd h.symm hk
        · simp only [mapPut, if_neg hk, mapKeys, List.map_cons]
          rw [show List.map Prod.fst (mapPut rest k v) = mapKeys (mapPut rest k v) from rfl,
            ih h]
          rfl

theorem mapKeys_mapPut_not_mem {α : Type} (m : List (String × α)) (k : String) (v : α)
    (h : k ∉ mapKeys m) : mapKeys (mapPut m k v) = mapKeys m ++ [k] := by
  induction m with
  | nil => simp [mapPut, mapKeys]
  | cons p rest ih =>
      obtain ⟨k', v'⟩ := p
      simp only [mapKeys, List.map_cons, List.mem_cons] at h
      push_neg at h
      simp only [mapPut, if_neg (Ne.symm h.1), mapKeys, List.map_cons, List.cons_append]
      rw [show List.map Prod.fst (mapPut rest k v) = mapKeys (mapPut rest k v) from rfl,
        ih h.2]
      rfl

theorem mapGet_eq_none_of_not_mem {α : Type} (m : List (String × α)) (k : String)
    (h : k ∉ mapKeys m) : mapGet m k = none := by
  cases hs : mapGet m k with
  | none => rfl
  | some v =>
      exact absurd ((mapGet_isSome_iff_mem_keys m k).1 (by simp [hs])) h

theorem mapGet_mem_values {α : Type} (m : List (String × α)) (k : String) (v : α)
    (h : mapGet m k = some v) : (k, v) ∈ m := by
  induction m with
  | nil => simp [mapGet] at h
  | cons p rest ih =>
      obtain ⟨k', v'⟩ := p
      by_cases hk : k' = k
      · subst hk
        have hv : v' = v := by simpa [mapGet] using h
        subst hv; exact List.mem_cons_self _ _
      · simp only [mapGet, if_neg hk] at h
        exact List.mem_cons_of_mem _ (ih h)

/-! ### Closed forms of the passes

The following definitions name what each loop of the source produces, so
that theorems can state it; each is proved equal to the corresponding
accumulator component below. -/

/-- The leaf tasks allocated by the first pass from counter `c`, in ticket
order: ticket `i` gets task id `t<c+i+1>`. -/
def leafTasksFor (a2r : List (String × String)) : List Ticket → Nat → List PlanTask
  | [], _ => []
  | t :: ts, c => leafTaskOf ("t" ++ natToDec (c + 1)) a2r t :: leafTasksFor a2r ts (c + 1)

/-- The pending-children references accumulated for epic key `k` by the
first pass (grouping on), in ticket order. -/
def epicMembersFor : List Ticket → Nat → String → List Reference
  | [], _, _ => []
  | t :: ts, c, k =>
      (if t.epicLink = k then [{ idRef := "t" ++ natToDec (c + 1) }] else [])
        ++ epicMembersFor ts (c + 1) k

/-- The top-level leaf references accumulated by the first pass. -/
def topRefsFor (gbe : Bool) : List Ticket → Nat → List Reference
  | [], _ => []
  | t :: ts, c =>
      (if gbe ∧ t.epicLink ≠ "" then [] else [{ idRef := "t" ++ natToDec (c + 1) }])
        ++ topRefsFor gbe ts (c + 1)

/-- Epic keys in order of first encounter in the ticket sequence, given the
keys already seen. -/
def epicKeysFor (gbe : Bool) : List Ticket → List String → List String
  | [], _ => []
  | t :: ts, seen =>
      if gbe ∧ t.epicLink ≠ "" ∧ t.epicLink ∉ seen then
        t.epicLink :: epicKeysFor gbe ts (seen ++ [t.epicLink])
      else epicKeysFor gbe ts seen

/-- The group/milestone task pairs emitted by the epic loop from counter
`c`, in visiting order. -/
def epicTasksFor (epics : List (String × Ticket))
    (ch : List (String × List Reference)) : List String → Nat → List PlanTask
  | [], _ => []
  | k :: ks, c =>
      epicGroupTask epics ch k c :: epicMsTask epics k c
        :: epicTasksFor epics ch ks (c + 2)

/-- Assignee names first seen by the resource loop, in first-appearance
order, given the names already seen. -/
def newStaffNames : List Ticket → List String → List String
  | [], _ => []
  | t :: ts, seen =>
      if t.assignee ≠ "" ∧ t.assignee ∉ seen then
        t.assignee :: newStaffNames ts (seen ++ [t.assignee])
      else newStaffNames ts seen

/-! #### First-pass (leaf) closed forms -/

theorem leafPass_counter (gbe : Bool) (a2r : List (String × String)) :
    ∀ (ts : List Ticket) (acc : LeafAcc),
      (leafPass gbe a2r ts acc).counter = acc.counter + ts.length := by
  intro ts
  induction ts with
  | nil => intro acc; simp [leafPass]
  | cons t ts ih =>
      intro acc
      rw [leafPass]
      split
      · rw [ih]; simp; omega
      · rw [ih]; simp; omega

theorem leafPass_taskPtrs (gbe : Bool) (a2r : List (String × String)) :
    ∀ (ts : List Ticket) (acc : LeafAcc),
      (leafPass gbe a2r ts acc).taskPtrs
        = acc.taskPtrs ++ leafTasksFor a2r ts acc.counter := by
  intro ts
  induction ts with
  | nil => intro acc; simp [leafPass, leafTasksFor]
  | cons t ts ih =>
      intro acc
      rw [leafPass, leafTasksFor]
      split
      · rw [ih]; simp
      · rw [ih]; simp

theorem leafPass_refs (gbe : Bool) (a2r : List (String × String)) :
    ∀ (ts : List Ticket) (acc : LeafAcc),
      (leafPass gbe a2r ts acc).refs = acc.refs ++ topRefsFor gbe ts acc.counter := by
  intro ts
  induction ts with
  | nil => intro acc; simp [leafPass, topRefsFor]
  | cons t ts ih =>
      intro acc
      rw [leafPass, topRefsFor]
      split
      · rename_i h
        rw [ih]; simp [h]
      · rename_i h
        rw [ih]; simp [h]

theorem leafPass_epicKeys (gbe : Bool) (a2r : List (String × String)) :
    ∀ (ts : List Ticket) (acc : LeafAcc),
      mapKeys (leafPass gbe a2r ts acc).epicChildren
        = mapKeys acc.epicChildren ++ epicKeysFor gbe ts (mapKeys acc.epicChildren) := by
  intro ts
  induction ts with
  | nil => intro acc; simp [leafPass, epicKeysFor]
  | cons t ts ih =>
      intro acc
      rw [leafPass, epicKeysFor]
      split
      · rename_i h
        by_cases hseen : t.epicLink ∈ mapKeys acc.epicChildren
        · rw [if_neg (by simp [h.1, h.2, hseen]), ih]
          simp [mapKeys_mapPut_mem _ _ _ hseen]
        · rw [if_pos (by simp [h.1, h.2, hseen]), ih]
          simp [mapKeys_mapPut_not_mem _ _ _ hseen]
      · rename_i h
        have hc : ¬(gbe ∧ t.epicLink ≠ "" ∧ t.epicLink ∉ mapKeys acc.epicChildren) := by
          intro hx; exact h ⟨hx.1, hx.2.1⟩
        rw [if_neg hc, ih]

/-- Task ids `t<c+1> … t<c+n>`. -/
def tidList (c n : Nat) : List String :=
  (List.range n).map fun i => "t" ++ natToDec (c + i + 1)

/-- Resource ids `r<c+1> … r<c+n>`. -/
def ridList (c n : Nat) : List String :=
  (List.range n).map fun i => "r" ++ natToDec (c + i + 1)

theorem tidList_nodup (c n : Nat) : (tidList c n).Nodup := by
  refine List.Nodup.map ?_ (List.nodup_range n)
  intro a b h
  have := prefixed_dec_inj h
  omega

theorem ridList_nodup (c n : Nat) : (ridList c n).Nodup := by
  refine List.Nodup.map ?_ (List.nodup_range n)
  intro a b h
  have := prefixed_dec_inj h
  omega

theorem mem_tidList_iff (c n : Nat) (m : Nat) :
    ("t" ++ natToDec m) ∈ tidList c n ↔ c < m ∧ m ≤ c + n := by
  unfold tidList
  simp only [List.mem_map, List.mem_range]
  constructor
  · rintro ⟨i, hi, h⟩
    have := prefixed_dec_inj h.symm
    omega
  · rintro ⟨h1, h2⟩
    refine ⟨m - c - 1, by omega, ?_⟩
    have hm : c + (m - c - 1) + 1 = m := by omega
    rw [hm]

theorem mem_ridList_iff (c n : Nat) (m : Nat) :
    ("r" ++ natToDec m) ∈ ridList c n ↔ c < m ∧ m ≤ c + n := by
  unfold ridList
  simp only [List.mem_map, List.mem_range]
  constructor
  · rintro ⟨i, hi, h⟩
    have := prefixed_dec_inj h.symm
    omega
  · rintro ⟨h1, h2⟩
    refine ⟨m - c - 1, by omega, ?_⟩
    have hm : c + (m - c - 1) + 1 = m := by omega
    rw [hm]

theorem tidList_succ (c n : Nat) :
    tidList c (n + 1) = ("t" ++ natToDec (c + 1)) :: tidList (c + 1) n := by
  unfold tidList
  rw [List.range_succ_eq_map]
  simp only [List.map_cons, List.map_map]
  congr 1
  apply List.map_congr_left
  intro i _
  simp only [Function.comp_apply]
  congr 2
  omega

theorem ridList_succ (c n : Nat) :
    ridList c (n + 1) = ("r" ++ natToDec (c + 1)) :: ridList (c + 1) n := by
  unfold ridList
  rw [List.range_succ_eq_map]
  simp only [List.map_cons, List.map_map]
  congr 1
  apply List.map_congr_left
  intro i _
  simp only [Function.comp_apply]
  congr 2
  omega

theorem leafTasksFor_length (a2r : List (String × String)) :
    ∀ (ts : List Ticket) (c : Nat), (leafTasksFor a2r ts c).length = ts.length := by
  intro ts
  induction ts with
  | nil => intro c; simp [leafTasksFor]
  | cons t ts ih => intro c; simp [leafTasksFor, ih]

theorem leafTasksFor_get? (a2r : List (String × String)) :
    ∀ (ts : List Ticket) (c i : Nat),
      (leafTasksFor a2r ts c).get? i
        = (ts.get? i).map fun t => leafTaskOf ("t" ++ natToDec (c + i + 1)) a2r t := by
  intro ts
  induction ts with
  | nil => intro c i; simp [leafTasksFor]
  | cons t ts ih =>
      intro c i
      cases i with
      | zero => simp [leafTasksFor]
      | succ j =>
          have hc : c + 1 + j + 1 = c + (j + 1) + 1 := by omega
          simp only [leafTasksFor, List.get?_cons_succ, ih (c + 1) j, hc]

theorem leafTasksFor_ids (a2r : List (String × String)) :
    ∀ (ts : List Ticket) (c : Nat),
      (leafTasksFor a2r ts c).map (fun t => t.id) = tidList c ts.length := by
  intro ts
  induction ts with
  | nil => intro c; simp [leafTasksFor, tidList]
  | cons t ts ih =>
      intro c
      rw [List.length_cons, tidList_succ]
      simp [leafTasksFor, leafTaskOf, ih]

theorem epicMembersFor_sub (k : String) :
    ∀ (ts : List Ticket) (c : Nat) (r : Reference),
      r ∈ epicMembersFor ts c k → r.idRef ∈ tidList c ts.length := by
  intro ts
  induction ts with
  | nil => intro c r h; simp [epicMembersFor] at h
  | cons t ts ih =>
      intro c r h
      rw [List.length_cons, tidList_succ]
      rcases List.mem_append.1 h with h | h
      · split at h
        · rcases List.mem_singleton.1 h with rfl
          exact List.mem_cons_self _ _
        · simp at h
      · exact List.mem_cons_of_mem _ (ih (c + 1) r h)

theorem topRefsFor_sub (gbe : Bool) :
    ∀ (ts : List Ticket) (c : Nat) (r : Reference),
      r ∈ topRefsFor gbe ts c → r.idRef ∈ tidList c ts.length := by
  intro ts
  induction ts with
  | nil => intro c r h; simp [topRefsFor] at h
  | cons t ts ih =>
      intro c r h
      rw [List.length_cons, tidList_succ]
      rcases List.mem_append.1 h with h | h
      · split at h
        · simp at h
        · rcases List.mem_singleton.1 h with rfl
          exact List.mem_cons_self _ _
      · exact List.mem_cons_of_mem _ (ih (c + 1) r h)

/-- Children accumulated for epic `k ≠ ""`: the accumulator's entry extended
by the member references contributed by the remaining tickets. -/
theorem leafPass_epicChildren_getD (a2r : List (String × String)) :
    ∀ (ts : List Ticket) (acc : LeafAcc) (k : String), k ≠ "" →
      (mapGet (leafPass true a2r ts acc).epicChildren k).getD []
        = (mapGet acc.epicChildren k).getD [] ++ epicMembersFor ts acc.counter k := by
  intro ts
  induction ts with
  | nil => intro acc k hk; simp [leafPass, epicMembersFor]
  | cons t ts ih =>
      intro acc k hk
      rw [leafPass, epicMembersFor]
      split
      · rename_i h
        by_cases hek : t.epicLink = k
        · subst hek
          rw [ih _ _ hk]
          simp [mapGet_mapPut_self]
        · rw [ih _ _ hk]
          simp only [mapGet_mapPut_ne _ _ (fun hx => hek hx)]
          simp [hek]
      · rename_i h
        have : ¬t.epicLink = k := by
          intro hx
          exact h ⟨rfl, hx ▸ hk⟩
        rw [ih _ _ hk]
        simp [this]

/-- A key resolves in the final key→task-id map iff it is the key of some
input ticket (or was already bound). -/
theorem leafPass_keyToTask_isSome (gbe : Bool) (a2r : List (String × String)) :
    ∀ (ts : List Ticket) (acc : LeafAcc) (k : String),
      (mapGet (leafPass gbe a2r ts acc).keyToTask k).isSome
        ↔ (mapGet acc.keyToTask k).isSome ∨ ∃ t ∈ ts, t.key = k := by
  intro ts
  induction ts with
  | nil => intro acc k; simp [leafPass]
  | cons t ts ih =>
      intro acc k
      rw [leafPass]
      have step : ∀ acc₂ : LeafAcc,
          acc₂.keyToTask = mapPut acc.keyToTask t.key ("t" ++ natToDec (acc.counter + 1)) →
          ((mapGet (leafPass gbe a2r ts acc₂).keyToTask k).isSome
            ↔ (mapGet acc.keyToTask k).isSome ∨ ∃ t' ∈ t :: ts, t'.key = k) := by
        intro acc₂ hacc
        rw [ih, hacc]
        by_cases hk : t.key = k
        · subst hk
          simp [mapGet_mapPut_self]
        · rw [mapGet_mapPut_ne _ _ hk]
          constructor
          · rintro (h | h)
            · exact Or.inl h
            · exact Or.inr (by rcases h with ⟨t', ht', hkey⟩; exact ⟨t', List.mem_cons_of_mem _ ht', hkey⟩)
          · rintro (h | h)
            · exact Or.inl h
            · rcases h with ⟨t', ht', hkey⟩
              rcases List.mem_cons.1 ht' with rfl | ht'
              · exact absurd hkey hk
              · exact Or.inr ⟨t', ht', hkey⟩
      split
      · exact step _ rfl
      · exact step _ rfl

/-- A resolved value in the final key→task-id map is the task id allocated
for some input ticket bearing that key (unless already bound before). -/
theorem leafPass_keyToTask_some (gbe : Bool) (a2r : List (String × String)) :
    ∀ (ts : List Ticket) (acc : LeafAcc) (k v : String),
      mapGet (leafPass gbe a2r ts acc).keyToTask k = some v →
      mapGet acc.keyToTask k = some v ∨
        ∃ i, ∃ hi : i < ts.length,
          (ts.get ⟨i, hi⟩).key = k ∧ v = "t" ++ natToDec (acc.counter + i + 1) := by
  intro ts
  induction ts with
  | nil => intro acc k v h; rw [leafPass] at h; exact Or.inl h
  | cons t ts ih =>
      intro acc k v h
      have step : ∀ acc₂ : LeafAcc,
          acc₂.keyToTask = mapPut acc.keyToTask t.key ("t" ++ natToDec (acc.counter + 1)) →
          acc₂.counter = acc.counter + 1 →
          mapGet (leafPass gbe a2r ts acc₂).keyToTask k = some v →
          mapGet acc.keyToTask k = some v ∨
            ∃ i, ∃ hi : i < (t :: ts).length,
              ((t :: ts).get ⟨i, hi⟩).key = k ∧ v = "t" ++ natToDec (acc.counter + i + 1) := by
        intro acc₂ hacc hcnt h₂
        rcases ih acc₂ k v h₂ with h₃ | ⟨i, hi, hkey, hv⟩
        · rw [hacc] at h₃
          by_cases hk : t.key = k
          · subst hk
            rw [mapGet_mapPut_self] at h₃
            refine Or.inr ⟨0, by simp, rfl, ?_⟩
            simpa using h₃.symm
          · rw [mapGet_mapPut_ne _ _ hk] at h₃
            exact Or.inl h₃
        · refine Or.inr ⟨i + 1, by simpa using Nat.succ_lt_succ hi, by simpa using hkey, ?_⟩
          rw [hv, hcnt]
          congr 2
          omega
      rw [leafPass] at h
      revert h
      split
      · exact step _ rfl rfl
      · exact step _ rfl rfl

/-! #### Epic-loop closed forms -/

theorem epicPass_counter (epics : List (String × Ticket))
    (ch : List (String × List Reference)) :
    ∀ (ks : List String) (acc : EpicAcc),
      (epicPass epics ch ks acc).counter = acc.counter + 2 * ks.length := by
  intro ks
  induction ks with
  | nil => intro acc; simp [epicPass]
  | cons k ks ih =>
      intro acc
      rw [epicPass, ih]
      simp
      omega

theorem epicPass_tasks (epics : List (String × Ticket))
    (ch : List (String × List Reference)) :
    ∀ (ks : List String) (acc : EpicAcc),
      (epicPass epics ch ks acc).tasks
        = acc.tasks ++ epicTasksFor epics ch ks acc.counter := by
  intro ks
  induction ks with
  | nil => intro acc; simp [epicPass, epicTasksFor]
  | cons k ks ih =>
      intro acc
      rw [epicPass, epicTasksFor, ih]
      simp

theorem epicPass_refs (epics : List (String × Ticket))
    (ch : List (String × List Reference)) :
    ∀ (ks : List String) (acc : EpicAcc),
      (epicPass epics ch ks acc).refs
        = acc.refs ++ (epicTasksFor epics ch ks acc.counter).map
            (fun t => ({ idRef := t.id } : Reference)) := by
  intro ks
  induction ks with
  | nil => intro acc; simp [epicPass, epicTasksFor]
  | cons k ks ih =>
      intro acc
      rw [epicPass, epicTasksFor, ih]
      simp

theorem epicPass_milestonesM_not_mem (epics : List (String × Ticket))
    (ch : List (String × List Reference)) :
    ∀ (ks : List String) (acc : EpicAcc) (k : String), k ∉ ks →
      mapGet (epicPass epics ch ks acc).milestonesM k = mapGet acc.milestonesM k := by
  intro ks
  induction ks with
  | nil => intro acc k _; rfl
  | cons k' ks ih =>
      intro acc k hk
      rw [epicPass, ih _ _ (fun h => hk (List.mem_cons_of_mem _ h))]
      exact mapGet_mapPut_ne _ _ (fun h => hk (h ▸ List.mem_cons_self _ _))

theorem epicPass_milestonesM_mem (epics : List (String × Ticket))
    (ch : List (String × List Reference)) :
    ∀ (ks : List String) (acc : EpicAcc) (k : String), ks.Nodup → k ∈ ks →
      mapGet (epicPass epics ch ks acc).milestonesM k
        = some (epicMsTask epics k (acc.counter + 2 * ks.indexOf k)) := by
  intro ks
  induction ks with
  | nil => intro acc k _ hk; simp at hk
  | cons k' ks ih =>
      intro acc k hnd hk
      rcases List.mem_cons.1 hk with rfl | hk'
      · rw [epicPass,
          epicPass_milestonesM_not_mem epics ch ks _ k (List.nodup_cons.1 hnd).1]
        simp [mapGet_mapPut_self, List.indexOf_cons_self]
      · have hne : k ≠ k' := by
          intro h; subst h; exact (List.nodup_cons.1 hnd).1 hk'
        rw [epicPass, ih _ _ (List.nodup_cons.1 hnd).2 hk']
        simp only [EpicAcc.mk.injEq]
        rw [List.indexOf_cons_ne _ (fun h => hne h.symm)]
        congr 2
        simp
        omega

/-! #### Resource-loop closed forms -/

theorem newStaffNames_nodup_disjoint :
    ∀ (ts : List Ticket) (seen : List String),
      (newStaffNames ts seen).Nodup ∧
        ∀ x ∈ newStaffNames ts seen, x ∉ seen ∧ x ≠ "" := by
  intro ts
  induction ts with
  | nil => intro seen; simp [newStaffNames]
  | cons t ts ih =>
      intro seen
      rw [newStaffNames]
      split
      · rename_i h
        obtain ⟨hnd, hmem⟩ := ih (seen ++ [t.assignee])
        constructor
        · refine List.nodup_cons.2 ⟨?_, hnd⟩
          intro hx
          exact (hmem _ hx).1 (List.mem_append.2 (Or.inr (List.mem_singleton.2 rfl)))
        · intro x hx
          rcases List.mem_cons.1 hx with rfl | hx'
          · exact ⟨h.2, h.1⟩
          · have := hmem _ hx'
            exact ⟨fun hs => this.1 (List.mem_append.2 (Or.inl hs)), this.2⟩
      · rename_i h
        exact ih seen

theorem newStaffNames_mem :
    ∀ (ts : List Ticket) (seen : List String) (x : String),
      x ∈ newStaffNames ts seen ↔ x ∉ seen ∧ x ≠ "" ∧ ∃ t ∈ ts, t.assignee = x := by
  intro ts
  induction ts with
  | nil => intro seen x; simp [newStaffNames]
  | cons t ts ih =>
      intro seen x
      rw [newStaffNames]
      split
      · rename_i h
        constructor
        · intro hx
          rcases List.mem_cons.1 hx with rfl | hx'
          · exact ⟨h.2, h.1, t, List.mem_cons_self _ _, rfl⟩
          · have := (ih (seen ++ [t.assignee]) x).1 hx'
            refine ⟨fun hs => this.1 (List.mem_append.2 (Or.inl hs)), this.2.1, ?_⟩
            rcases this.2.2 with ⟨t', ht', ha⟩
            exact ⟨t', List.mem_cons_of_mem _ ht', ha⟩
        · rintro ⟨hns, hne, t', ht', ha⟩
          by_cases hxa : x = t.assignee
          · subst hxa; exact List.mem_cons_self _ _
          · refine List.mem_cons_of_mem _ ((ih (seen ++ [t.assignee]) x).2
              ⟨?_, hne, ?_⟩)
            · intro hmem
              rcases List.mem_append.1 hmem with hs | hs
              · exact hns hs
              · exact hxa (List.mem_singleton.1 hs)
            · rcases List.mem_cons.1 ht' with rfl | ht''
              · exact absurd ha.symm hxa
              · exact ⟨t', ht'', ha⟩
      · rename_i h
        rw [ih seen x]
        constructor
        · rintro ⟨hns, hne, t', ht', ha⟩
          exact ⟨hns, hne, t', List.mem_cons_of_mem _ ht', ha⟩
        · rintro ⟨hns, hne, t', ht', ha⟩
          rcases List.mem_cons.1 ht' with rfl | ht''
          · subst ha
            exact absurd ⟨hne, hns⟩ h
          · exact ⟨hns, hne, t', ht'', ha⟩

/-- Invariants of the resource loop, proved in one induction: the
assignee→id map's keys are exactly the staff names (in order), staff names
extend by the newly seen assignees, staff ids extend by consecutive `r<n>`
ids, child references track staff, fields are fixed, and the map is
consistent with the staff list. -/
theorem resourcePass_closed :
    ∀ (ts : List Ticket) (acc : ResAcc),
      mapKeys acc.a2r = acc.staff.map (fun r => r.name) →
      acc.crefs = acc.staff.map (fun r => ({ idRef := r.id } : Reference)) →
      (∀ k v, mapGet acc.a2r k = some v → ∃ r ∈ acc.staff, r.name = k ∧ r.id = v) →
      (∀ r : Resource, r ∈ acc.staff → r.type = "Staff" ∧ r.childResources = []) →
      let out := resourcePass ts acc
      mapKeys out.a2r = out.staff.map (fun r => r.name) ∧
      out.crefs = out.staff.map (fun r => ({ idRef := r.id } : Reference)) ∧
      (∀ k v, mapGet out.a2r k = some v → ∃ r ∈ out.staff, r.name = k ∧ r.id = v) ∧
      (∀ r : Resource, r ∈ out.staff → r.type = "Staff" ∧ r.childResources = []) ∧
      out.staff.map (fun r => r.name)
        = acc.staff.map (fun r => r.name) ++ newStaffNames ts (mapKeys acc.a2r) ∧
      out.staff.map (fun r => r.id)
        = acc.staff.map (fun r => r.id)
            ++ ((ridList acc.counter (newStaffNames ts (mapKeys acc.a2r)).length).map id) ∧
      out.counter = acc.counter + (newStaffNames ts (mapKeys acc.a2r)).length := by
  intro ts
  induction ts with
  | nil =>
      intro acc h1 h2 h3 h4
      refine ⟨h1, h2, h3, h4, ?_, ?_, ?_⟩ <;> simp [resourcePass, newStaffNames, ridList]
  | cons t ts ih =>
      intro acc h1 h2 h3 h4
      rw [resourcePass]
      by_cases ha : t.assignee ≠ ""
      · rw [if_pos ha]
        by_cases hseen : (mapGet acc.a2r t.assignee).isSome
        · rw [if_pos hseen]
          have hmemseen : t.assignee ∈ mapKeys acc.a2r :=
            (mapGet_isSome_iff_mem_keys _ _).1 hseen
          have hnsn : newStaffNames (t :: ts) (mapKeys acc.a2r)
              = newStaffNames ts (mapKeys acc.a2r) := by
            rw [newStaffNames, if_neg (by simp [ha, hmemseen])]
          rw [hnsn] at *
          exact ih acc h1 h2 h3 h4
        · rw [if_neg hseen]
          have hnseen : t.assignee ∉ mapKeys acc.a2r := by
            intro h; exact hseen ((mapGet_isSome_iff_mem_keys _ _).2 h)
          have hnsn : newStaffNames (t :: ts) (mapKeys acc.a2r)
              = t.assignee :: newStaffNames ts (mapKeys acc.a2r ++ [t.assignee]) := by
            rw [newStaffNames, if_pos ⟨ha, hnseen⟩]
          set rid := "r" ++ natToDec (acc.counter + 1) with hrid
          set newRes : Resource := { id := rid, name := t.assignee, type := "Staff" }
            with hnewRes
          set acc₂ : ResAcc :=
            { a2r := mapPut acc.a2r t.assignee rid
              staff := acc.staff ++ [newRes]
              crefs := acc.crefs ++ [{ idRef := rid }]
              counter := acc.counter + 1 } with hacc₂
          have k1 : mapKeys acc₂.a2r = acc₂.staff.map (fun r => r.name) := by
            simp only [hacc₂, mapKeys_mapPut_not_mem _ _ _ hnseen, h1]
            simp [hnewRes]
          have k2 : acc₂.crefs = acc₂.staff.map (fun r => ({ idRef := r.id } : Reference)) := by
            simp [hacc₂, h2, hnewRes]
          have k3 : ∀ k v, mapGet acc₂.a2r k = some v →
              ∃ r ∈ acc₂.staff, r.name = k ∧ r.id = v := by
            intro k v hv
            by_cases hk : t.assignee = k
            · subst hk
              rw [hacc₂] at hv
              simp only [mapGet_mapPut_self, Option.some.injEq] at hv
              exact ⟨newRes, by simp [hacc₂], by simp [hnewRes, hv]⟩
            · rw [hacc₂] at hv
              simp only at hv
              rw [mapGet_mapPut_ne _ _ hk] at hv
              obtain ⟨r, hr, hrn, hri⟩ := h3 k v hv
              exact ⟨r, by simp [hacc₂, hr], hrn, hri⟩
          have k4 : ∀ r : Resource, r ∈ acc₂.staff →
              r.type = "Staff" ∧ r.childResources = [] := by
            intro r hr
            have hr2 : r ∈ acc.staff ∨ r = newRes := by simpa [hacc₂] using hr
            rcases hr2 with hr' | rfl
            · exact h4 r hr'
            · simp [hnewRes]
          obtain ⟨g1, g2, g3, g4, g5, g6, g7⟩ := ih acc₂ k1 k2 k3 k4
          have hkeys₂ : mapKeys acc₂.a2r = mapKeys acc.a2r ++ [t.assignee] := by
            simp [hacc₂, mapKeys_mapPut_not_mem _ _ _ hnseen]
          refine ⟨g1, g2, g3, g4, ?_, ?_, ?_⟩
          · rw [g5, hnsn]
            simp [hacc₂, hnewRes, hkeys₂]
          · rw [g6, hnsn]
            simp only [hacc₂, hkeys₂, List.map_append, List.map_id]
            simp only [List.length_cons]
            rw [ridList_succ]
            simp [hnewRes, hrid]
          · rw [g7, hnsn]
            simp [hacc₂, hkeys₂]
            omega
      · rw [if_neg ha]
        push_neg at ha
        have hnsn : newStaffNames (t :: ts) (mapKeys acc.a2r)
            = newStaffNames ts (mapKeys acc.a2r) := by
          rw [newStaffNames, if_neg (by simp [ha])]
        rw [hnsn] at *
        exact ih acc h1 h2 h3 h4

/-! #### Dependency-resolution closed forms -/

/-- The resolved prerequisites appended to a leaf task for a ticket. -/
def resolvedPrereqs (km : List (String × String)) (t : Ticket) : List PrerequisiteTask :=
  t.dependencyKeys.filterMap fun d => (mapGet km d).map fun tid => { idRef := tid }

/-- The warnings a ticket contributes: one per unresolvable dependency key,
in listed order. -/
def ticketWarnings (km : List (String × String)) (t : Ticket) : List (String × String) :=
  (t.dependencyKeys.filter fun d => (mapGet km d).isNone).map fun d => (t.key, d)

theorem resolveDeps_length (km : List (String × String)) :
    ∀ (ts : List Ticket) (ps : List PlanTask),
      (resolveDeps km ts ps).1.length = min ts.length ps.length := by
  intro ts
  induction ts with
  | nil => intro ps; simp [resolveDeps]
  | cons t ts ih =>
      intro ps
      cases ps with
      | nil => simp [resolveDeps]
      | cons p ps =>
          rw [resolveDeps]
          simp only [List.length_cons, ih]
          omega

theorem resolveDeps_fst_get? (km : List (String × String)) :
    ∀ (ts : List Ticket) (ps : List PlanTask) (i : Nat),
      (resolveDeps km ts ps).1[i]?
        = ts[i]?.bind fun t => ps[i]?.map fun task =>
            { task with prerequisites := task.prerequisites ++ resolvedPrereqs km t } := by
  intro ts
  induction ts with
  | nil => intro ps i; simp [resolveDeps]
  | cons t ts ih =>
      intro ps i
      cases ps with
      | nil => cases i <;> simp [resolveDeps]
      | cons p ps =>
          cases i with
          | zero => simp [resolveDeps, resolvedPrereqs]
          | succ j => simp [resolveDeps, ih ps j]

theorem resolveDeps_snd (km : List (String × String)) :
    ∀ (ts : List Ticket) (ps : List PlanTask), ts.length = ps.length →
      (resolveDeps km ts ps).2 = (ts.map (ticketWarnings km)).flatten := by
  intro ts
  induction ts with
  | nil => intro ps _; simp [resolveDeps]
  | cons t ts ih =>
      intro ps hlen
      cases ps with
      | nil => simp at hlen
      | cons p ps =>
          rw [resolveDeps]
          simp only [List.map_cons, List.flatten]
          rw [ih ps (by simpa using hlen)]
          rfl

theorem resolveDeps_mem (km : List (String × String)) :
    ∀ (ts : List Ticket) (ps : List PlanTask) (t' : PlanTask),
      t' ∈ (resolveDeps km ts ps).1 →
      ∃ t ∈ ts, ∃ task ∈ ps,
        t' = { task with prerequisites := task.prerequisites ++ resolvedPrereqs km t } := by
  intro ts
  induction ts with
  | nil => intro ps t' h; simp [resolveDeps] at h
  | cons t ts ih =>
      intro ps t' h
      cases ps with
      | nil => simp [resolveDeps] at h
      | cons p ps =>
          rw [resolveDeps] at h
          rcases List.mem_cons.1 h with rfl | h'
          · exact ⟨t, List.mem_cons_self _ _, p, List.mem_cons_self _ _, rfl⟩
          · obtain ⟨t0, ht0, task0, htask0, heq⟩ := ih ps t' h'
            exact ⟨t0, List.mem_cons_of_mem _ ht0, task0, List.mem_cons_of_mem _ htask0, heq⟩

theorem resolveDeps_ids (km : List (String × String)) :
    ∀ (ts : List Ticket) (ps : List PlanTask), ts.length = ps.length →
      (resolveDeps km ts ps).1.map (fun t => t.id) = ps.map (fun t => t.id) := by
  intro ts
  induction ts with
  | nil => intro ps h; cases ps with
      | nil => simp [resolveDeps]
      | cons p ps => simp at h
  | cons t ts ih =>
      intro ps hlen
      cases ps with
      | nil => simp at hlen
      | cons p ps =>
          rw [resolveDeps]
          simp only [List.map_cons]
          rw [ih ps (by simpa using hlen)]

/-! #### Shape of leaf tasks -/

theorem leafTasksFor_mem (a2r : List (String × String)) :
    ∀ (ts : List Ticket) (c : Nat) (task : PlanTask),
      task ∈ leafTasksFor a2r ts c →
      ∃ tid t, t ∈ ts ∧ task = leafTaskOf tid a2r t := by
  intro ts
  induction ts with
  | nil => intro c task h; simp [leafTasksFor] at h
  | cons t ts ih =>
      intro c task h
      rw [leafTasksFor] at h
      rcases List.mem_cons.1 h with rfl | h'
      · exact ⟨_, t, List.mem_cons_self _ _, rfl⟩
      · obtain ⟨tid, t0, ht0, heq⟩ := ih (c + 1) task h'
        exact ⟨tid, t0, List.mem_cons_of_mem _ ht0, heq⟩

theorem leafTaskOf_type (tid : String) (a2r : List (String × String)) (t : Ticket) :
    (leafTaskOf tid a2r t).type = "" := rfl

/-! ## Claim C10 -/

theorem epicStage_false (epics : List (String × Ticket))
    (ch : List (String × List Reference)) (eord : List String)
    (refs : List Reference) (c : Nat) :
    epicStage false epics ch eord refs c
      = { tasks := [], refs := refs, milestonesM := [], counter := c } := by
  simp [epicStage]

theorem doneBlock_false_nil (md : Bool) (msord : List String)
    (ems : List (String × PlanTask)) (c : Nat) :
    doneBlock md false msord ems [] c = ([], [], c) := by
  cases md <;> simp [doneBlock, donePrereqsOf]

/-- C10: when `groupByEpic` is false the builder creates no task of kind
`"milestone"` at all, and `addDoneMilestone` (`MilestoneDone`) has no
effect: the "Done" prerequisite collection is always empty, so the entire
build output — tasks, references, warnings, counter, and the whole
document — is identical with the flag on or off, and no `"Done"` milestone
task is emitted. -/
theorem claim_C10 (s : Serializer) (tickets : List Ticket)
    (a2r : List (String × String)) (epics : List (String × Ticket))
    (eord msord : List String) (c : Nat) (hg : s.groupByEpic = false) :
    buildTasksFromTickets s tickets a2r epics eord msord c
      = buildTasksFromTickets { s with milestoneDone := false } tickets a2r epics eord msord c
    ∧ (∀ t ∈ (buildTasksFromTickets s tickets a2r epics eord msord c).1,
        t.type ≠ "milestone")
    ∧ buildScenarioDoc s tickets epics eord msord c
      = buildScenarioDoc { s with milestoneDone := false } tickets epics eord msord c := by
  have hbt : ∀ (md : Bool) (a2r' : List (String × String)) (c' : Nat),
      buildTasksFromTickets { s with milestoneDone := md } tickets a2r' epics eord msord c'
        = buildTasksFromTickets s tickets a2r' epics eord msord c' := by
    intro md a2r' c'
    unfold buildTasksFromTickets
    simp [hg, epicStage_false, doneBlock_false_nil]
  have h1 : buildTasksFromTickets s tickets a2r epics eord msord c
      = buildTasksFromTickets { s with milestoneDone := false } tickets a2r epics
          eord msord c := (hbt false a2r c).symm
  refine ⟨h1, ?_, ?_⟩
  · intro t ht
    unfold buildTasksFromTickets at ht
    rw [hg] at ht
    simp only [epicStage_false, doneBlock_false_nil, List.nil_append,
      List.append_nil] at ht
    have hmem := resolveDeps_mem _ _ _ _ ht
    obtain ⟨t0, _, task0, htask0, heq⟩ := hmem
    have hp1 : (pass1 false a2r tickets c).taskPtrs = leafTasksFor a2r tickets c := by
      unfold pass1
      rw [leafPass_taskPtrs]
      simp [leafAcc0]
    rw [hp1] at htask0
    obtain ⟨tid, t1, _, heq1⟩ := leafTasksFor_mem a2r tickets c task0 htask0
    subst heq
    subst heq1
    intro hty
    simp only [leafTaskOf] at hty
    exact (by decide : ("" : String) ≠ "milestone") hty
  · unfold buildScenarioDoc
    simp only [hbt false]

/-! ## Claim C3 -/

theorem effortSeconds_nonneg (t : Ticket) : 0 ≤ effortSeconds t := by
  unfold effortSeconds
  split
  · rename_i h
    unfold ratTruncToZero
    rw [if_pos (by positivity)]
    exact Int.floor_nonneg.2 (by positivity)
  · norm_num

theorem effortSeconds_pos_of (t : Ticket)
    (h : t.effortDays = 0 ∨ 1 ≤ t.effortDays * 28800) : 0 < effortSeconds t := by
  unfold effortSeconds
  rcases h with h | h
  · rw [if_neg (by rw [h]; norm_num)]
    norm_num
  · have hq : (0 : ℚ) < t.effortDays := by nlinarith
    rw [if_pos hq]
    unfold ratTruncToZero
    rw [if_pos (by positivity)]
    have h1 : (1 : ℚ) ≤ t.effortDays * 8 * 3600 := by nlinarith
    have h2 : (1 : ℤ) ≤ ⌊t.effortDays * 8 * 3600⌋ := Int.le_floor.2 (by exact_mod_cast h1)
    omega

theorem effortSeconds_two_days : effortSeconds { effortDays := 2 } = 57600 := by
  show (if ((2 : ℚ)) > 0 then ratTruncToZero ((2 : ℚ) * 8 * 3600) else 28800) = 57600
  rw [if_pos (by norm_num)]
  unfold ratTruncToZero
  rw [if_pos (by norm_num)]
  have h : ((2 : ℚ) * 8 * 3600) = ((57600 : ℤ) : ℚ) := by norm_num
  rw [h, Int.floor_intCast]

theorem effortSeconds_five_days : effortSeconds { effortDays := 5 } = 144000 := by
  show (if ((5 : ℚ)) > 0 then ratTruncToZero ((5 : ℚ) * 8 * 3600) else 28800) = 144000
  rw [if_pos (by norm_num)]
  unfold ratTruncToZero
  rw [if_pos (by norm_num)]
  have h : ((5 : ℚ) * 8 * 3600) = ((144000 : ℤ) : ℚ) := by norm_num
  rw [h, Int.floor_intCast]

/-- C3 (corrected): for every ticket, its leaf task's effort equals
`effortSeconds`: the product `effortDays * 8 * 3600` **truncated toward
zero** (Go's `int64` conversion — not rounded to nearest) when
`effortDays > 0`, and exactly 28800 otherwise.  2 days give 57600, 5 days
144000 and an unset effort 28800.  Effort is always non-negative, and
positive whenever `effortDays` is zero or at least `1/28800` of a day —
but not in general (see the counterexample). -/
theorem claim_C3 (s : Serializer) (tickets : List Ticket)
    (a2r : List (String × String)) (epics : List (String × Ticket))
    (eord msord : List String) (c : Nat) (i : Nat) (hi : i < tickets.length) :
    (∃ pre leafs,
      (buildTasksFromTickets s tickets a2r epics eord msord c).1 = pre ++ leafs
      ∧ leafs.length = tickets.length
      ∧ leafs[i]?.map (fun t => t.effort) = some (effortSeconds tickets[i]))
    ∧ (tickets[i].effortDays > 0 →
        effortSeconds tickets[i] = ratTruncToZero (tickets[i].effortDays * 8 * 3600))
    ∧ (¬tickets[i].effortDays > 0 → effortSeconds tickets[i] = 28800)
    ∧ 0 ≤ effortSeconds tickets[i]
    ∧ ((tickets[i].effortDays = 0 ∨ 1 ≤ tickets[i].effortDays * 28800) →
        0 < effortSeconds tickets[i])
    ∧ effortSeconds { effortDays := 2 } = 57600
    ∧ effortSeconds { effortDays := 5 } = 144000
    ∧ effortSeconds {} = 28800 := by
  refine ⟨?_, ?_, ?_, effortSeconds_nonneg _, effortSeconds_pos_of _,
    effortSeconds_two_days, effortSeconds_five_days, rfl⟩
  · set p1 := pass1 s.groupByEpic a2r tickets c with hp1def
    set ep := epicStage s.groupByEpic epics p1.epicChildren eord p1.refs p1.counter
      with hepdef
    refine ⟨ep.tasks
      ++ (doneBlock s.milestoneDone s.groupByEpic msord ep.milestonesM ep.tasks ep.counter).1,
      (resolveDeps p1.keyToTask tickets p1.taskPtrs).1, ?_, ?_, ?_⟩
    · unfold buildTasksFromTickets
      simp [List.append_assoc]
    · have hps : (pass1 s.groupByEpic a2r tickets c).taskPtrs
          = leafTasksFor a2r tickets c := by
        unfold pass1
        rw [leafPass_taskPtrs]
        simp [leafAcc0]
      rw [resolveDeps_length, hps, leafTasksFor_length]
      omega
    · have hps : (pass1 s.groupByEpic a2r tickets c).taskPtrs
          = leafTasksFor a2r tickets c := by
        unfold pass1
        rw [leafPass_taskPtrs]
        simp [leafAcc0]
      rw [resolveDeps_fst_get?, hps]
      have hL : (leafTasksFor a2r tickets c)[i]?
          = (tickets[i]?).map fun t => leafTaskOf ("t" ++ natToDec (c + i + 1)) a2r t := by
        rw [← List.get?_eq_getElem?, ← List.get?_eq_getElem?]
        exact leafTasksFor_get? a2r tickets c i
      rw [hL]
      rw [List.getElem?_eq_getElem hi]
      simp [leafTaskOf]
  · intro h
    unfold effortSeconds
    rw [if_pos h]
  · intro h
    unfold effortSeconds
    rw [if_neg h]

/-- Sample ticket with a fractional effort where truncation and rounding
differ: `0.0001 * 8 * 3600 = 2.88`. -/
def cexTicketA : Ticket := { key := "A", effortDays := 1 / 10000 }

/-- Sample ticket with a tiny positive effort: `0.00001 * 8 * 3600 = 0.288`,
truncating to effort 0. -/
def cexTicketB : Ticket := { key := "B", effortDays := 1 / 100000 }

/-- The build of a single dependency-free ticket under default options:
one leaf task, whose effort is `effortSeconds`. -/
theorem singleTicket_efforts (t : Ticket) (hd : t.dependencyKeys = []) :
    ((buildTasksFromTickets {} [t] [] [] [] [] 0).1.map fun x => x.effort)
      = [effortSeconds t] := by
  simp [buildTasksFromTickets, pass1, leafAcc0, leafPass, epicStage, doneBlock,
    donePrereqsOf, resolveDeps, leafTaskOf, hd]

theorem effortSeconds_cexA : effortSeconds cexTicketA = 2 := by
  show (if ((1 : ℚ) / 10000) > 0 then ratTruncToZero ((1 : ℚ) / 10000 * 8 * 3600)
    else 28800) = 2
  rw [if_pos (by norm_num)]
  unfold ratTruncToZero
  rw [if_pos (by norm_num)]
  rw [Int.floor_eq_iff]
  constructor <;> norm_num

theorem effortSeconds_cexB : effortSeconds cexTicketB = 0 := by
  show (if ((1 : ℚ) / 100000) > 0 then ratTruncToZero ((1 : ℚ) / 100000 * 8 * 3600)
    else 28800) = 0
  rw [if_pos (by norm_num)]
  unfold ratTruncToZero
  rw [if_pos (by norm_num)]
  rw [Int.floor_eq_iff]
  constructor <;> norm_num

/-- C3 counterexample: the claim says the leaf effort is
`round(effortDays * 8 * 3600)` and always positive.  On a ticket with
`effortDays = 0.0001` the build emits effort 2 while rounding gives 3, and
on `effortDays = 0.00001` (a positive effort) the emitted effort is 0, not
positive. -/
theorem claim_C3_counterexample :
    ((buildTasksFromTickets {} [cexTicketA] [] [] [] [] 0).1.map fun t => t.effort) = [2]
    ∧ round (cexTicketA.effortDays * 8 * 3600) = 3
    ∧ cexTicketA.effortDays > 0
    ∧ ((buildTasksFromTickets {} [cexTicketB] [] [] [] [] 0).1.map fun t => t.effort) = [0]
    ∧ cexTicketB.effortDays > 0 := by
  refine ⟨?_, ?_, by norm_num [cexTicketA], ?_, by norm_num [cexTicketB]⟩
  · rw [singleTicket_efforts cexTicketA rfl, effortSeconds_cexA]
  · show round ((1 : ℚ) / 10000 * 8 * 3600) = 3
    rw [round_eq, Int.floor_eq_iff]
    constructor <;> norm_num
  · rw [singleTicket_efforts cexTicketB rfl, effortSeconds_cexB]

/-- Sample ticket with a whole-day effort, used to instantiate theorems. -/
def wTicketA : Ticket := { key := "A", effortDays := 2 }

theorem claim_C3_witness :
    (0 : Nat) < ([wTicketA] : List Ticket).length ∧
    ((∃ pre leafs,
        (buildTasksFromTickets {} [wTicketA] [] [] [] [] 0).1 = pre ++ leafs
        ∧ leafs.length = ([wTicketA] : List Ticket).length
        ∧ leafs[0]?.map (fun t => t.effort) = some (effortSeconds wTicketA))
      ∧ (wTicketA.effortDays > 0 →
          effortSeconds wTicketA = ratTruncToZero (wTicketA.effortDays * 8 * 3600))
      ∧ (¬wTicketA.effortDays > 0 → effortSeconds wTicketA = 28800)
      ∧ 0 ≤ effortSeconds wTicketA
      ∧ ((wTicketA.effortDays = 0 ∨ 1 ≤ wTicketA.effortDays * 28800) →
          0 < effortSeconds wTicketA)
      ∧ effortSeconds { effortDays := 2 } = 57600
      ∧ effortSeconds { effortDays := 5 } = 144000
      ∧ effortSeconds {} = 28800) :=
  ⟨Nat.one_pos, claim_C3 {} [wTicketA] [] [] [] [] 0 0 Nat.one_pos⟩

/-- Sample serializer configuration with both flags off except
`MilestoneDone`. -/
def w10s : Serializer := { projectName := "P", groupByEpic := false, milestoneDone := true }

theorem claim_C10_witness :
    w10s.groupByEpic = false
    ∧ (buildTasksFromTickets w10s [wTicketA] [] [] [] [] 0
        = buildTasksFromTickets { w10s with milestoneDone := false } [wTicketA] [] [] [] [] 0
      ∧ (∀ t ∈ (buildTasksFromTickets w10s [wTicketA] [] [] [] [] 0).1,
          t.type ≠ "milestone")
      ∧ buildScenarioDoc w10s [wTicketA] [] [] [] 0
        = buildScenarioDoc { w10s with milestoneDone := false } [wTicketA] [] [] [] 0) :=
  ⟨rfl, claim_C10 w10s [wTicketA] [] [] [] [] 0 rfl⟩

/-! ## Claim C5 -/

/-- The ticket-key→task-id map built by the first pass. -/
def keyMapOf (s : Serializer) (tickets : List Ticket)
    (a2r : List (String × String)) (c : Nat) : List (String × String) :=
  (pass1 s.groupByEpic a2r tickets c).keyToTask

/-- C5 (confirmed): for every ticket and each of its dependency keys in
listed order, a key that maps to a task of the input set contributes
exactly one prerequisite entry (bearing that task's id) on the ticket's own
leaf task, and a key that does not resolve contributes no prerequisite but
one (ticket key, missing key) warning; the build always returns a result
(it never fails). -/
theorem claim_C5 (s : Serializer) (tickets : List Ticket)
    (a2r : List (String × String)) (epics : List (String × Ticket))
    (eord msord : List String) (c : Nat) (i : Nat) (hi : i < tickets.length) :
    (∃ pre leafs,
      (buildTasksFromTickets s tickets a2r epics eord msord c).1 = pre ++ leafs
      ∧ leafs.length = tickets.length
      ∧ leafs[i]?.map (fun t => t.prerequisites)
          = some (resolvedPrereqs (keyMapOf s tickets a2r c) tickets[i]))
    ∧ resolvedPrereqs (keyMapOf s tickets a2r c) tickets[i]
        = tickets[i].dependencyKeys.filterMap (fun d =>
            (mapGet (keyMapOf s tickets a2r c) d).map fun tid =>
              ({ idRef := tid } : PrerequisiteTask))
    ∧ (∀ d, (mapGet (keyMapOf s tickets a2r c) d).isSome ↔ ∃ t ∈ tickets, t.key = d)
    ∧ (∀ d v, mapGet (keyMapOf s tickets a2r c) d = some v →
        ∃ j, ∃ hj : j < tickets.length,
          tickets[j].key = d ∧ v = "t" ++ natToDec (c + j + 1))
    ∧ (buildTasksFromTickets s tickets a2r epics eord msord c).2.2.1
        = (tickets.map (ticketWarnings (keyMapOf s tickets a2r c))).flatten
    ∧ ticketWarnings (keyMapOf s tickets a2r c) tickets[i]
        = (tickets[i].dependencyKeys.filter (fun d =>
            (mapGet (keyMapOf s tickets a2r c) d).isNone)).map
              fun d => (tickets[i].key, d) := by
  have hps : (pass1 s.groupByEpic a2r tickets c).taskPtrs = leafTasksFor a2r tickets c := by
    unfold pass1
    rw [leafPass_taskPtrs]
    simp [leafAcc0]
  refine ⟨?_, rfl, ?_, ?_, ?_, rfl⟩
  · set p1 := pass1 s.groupByEpic a2r tickets c with hp1def
    set ep := epicStage s.groupByEpic epics p1.epicChildren eord p1.refs p1.counter
      with hepdef
    refine ⟨ep.tasks
      ++ (doneBlock s.milestoneDone s.groupByEpic msord ep.milestonesM ep.tasks ep.counter).1,
      (resolveDeps p1.keyToTask tickets p1.taskPtrs).1, ?_, ?_, ?_⟩
    · unfold buildTasksFromTickets
      simp [List.append_assoc]
    · rw [resolveDeps_length, hp1def, hps, leafTasksFor_length]
      omega
    · rw [resolveDeps_fst_get?, hp1def, hps]
      have hL : (leafTasksFor a2r tickets c)[i]?
          = (tickets[i]?).map fun t => leafTaskOf ("t" ++ natToDec (c + i + 1)) a2r t := by
        rw [← List.get?_eq_getElem?, ← List.get?_eq_getElem?]
        exact leafTasksFor_get? a2r tickets c i
      rw [hL, List.getElem?_eq_getElem hi]
      simp [leafTaskOf, keyMapOf]
  · intro d
    unfold keyMapOf pass1
    rw [leafPass_keyToTask_isSome]
    simp [leafAcc0, mapGet]
  · intro d v hv
    unfold keyMapOf pass1 at hv
    rcases leafPass_keyToTask_some s.groupByEpic a2r tickets (leafAcc0 c) d v hv with h | h
    · simp [leafAcc0, mapGet] at h
    · obtain ⟨j, hj, hkey, hval⟩ := h
      refine ⟨j, hj, ?_, by simpa [leafAcc0] using hval⟩
      rw [← hkey]
      simp [List.get_eq_getElem]
  · unfold buildTasksFromTickets
    simp only []
    rw [resolveDeps_snd _ _ _ (by rw [hps, leafTasksFor_length])]
    rfl

/-- Sample ticket with a dependency on `wTicketA`. -/
def wTicketB : Ticket := { key := "B", dependencyKeys := ["A"] }

theorem claim_C5_witness :
    (1 : Nat) < ([wTicketA, wTicketB] : List Ticket).length ∧
    ((∃ pre leafs,
        (buildTasksFromTickets {} [wTicketA, wTicketB] [] [] [] [] 0).1 = pre ++ leafs
        ∧ leafs.length = ([wTicketA, wTicketB] : List Ticket).length
        ∧ leafs[1]?.map (fun t => t.prerequisites)
            = some (resolvedPrereqs (keyMapOf {} [wTicketA, wTicketB] [] 0) wTicketB))
      ∧ resolvedPrereqs (keyMapOf {} [wTicketA, wTicketB] [] 0) wTicketB
          = wTicketB.dependencyKeys.filterMap (fun d =>
              (mapGet (keyMapOf {} [wTicketA, wTicketB] [] 0) d).map fun tid =>
                ({ idRef := tid } : PrerequisiteTask))
      ∧ (∀ d, (mapGet (keyMapOf {} [wTicketA, wTicketB] [] 0) d).isSome
            ↔ ∃ t ∈ [wTicketA, wTicketB], t.key = d)
      ∧ (∀ d v, mapGet (keyMapOf {} [wTicketA, wTicketB] [] 0) d = some v →
          ∃ j, ∃ hj : j < ([wTicketA, wTicketB] : List Ticket).length,
            ([wTicketA, wTicketB] : List Ticket)[j].key = d
              ∧ v = "t" ++ natToDec (0 + j + 1))
      ∧ (buildTasksFromTickets {} [wTicketA, wTicketB] [] [] [] [] 0).2.2.1
          = ([wTicketA, wTicketB].map
              (ticketWarnings (keyMapOf {} [wTicketA, wTicketB] [] 0))).flatten
      ∧ ticketWarnings (keyMapOf {} [wTicketA, wTicketB] [] 0) wTicketB
          = (wTicketB.dependencyKeys.filter (fun d =>
              (mapGet (keyMapOf {} [wTicketA, wTicketB] [] 0) d).isNone)).map
                fun d => (wTicketB.key, d)) :=
  ⟨Nat.one_lt_two, claim_C5 {} [wTicketA, wTicketB] [] [] [] [] 0 1 Nat.one_lt_two⟩

/-! ## Pipeline stages of `buildScenario`, named for the statements below -/

/-- The resource loop of `buildScenario` (its `let r := …`). -/
def resStage (tickets : List Ticket) (c : Nat) : ResAcc :=
  resourcePass tickets { counter := (GenerateID c).2 }

/-- The first (leaf) pass as run inside `buildScenario`. -/
def p1Stage (s : Serializer) (tickets : List Ticket) (c : Nat) : LeafAcc :=
  pass1 s.groupByEpic (resStage tickets c).a2r tickets (resStage tickets c).counter

/-- The epic-materialization stage as run inside `buildScenario`. -/
def epStage (s : Serializer) (tickets : List Ticket) (epics : List (String × Ticket))
    (eord : List String) (c : Nat) : EpicAcc :=
  epicStage s.groupByEpic epics (p1Stage s tickets c).epicChildren eord
    (p1Stage s tickets c).refs (p1Stage s tickets c).counter

/-- The Done-milestone stage as run inside `buildScenario`. -/
def dbStage (s : Serializer) (tickets : List Ticket) (epics : List (String × Ticket))
    (eord msord : List String) (c : Nat) : List PlanTask × List Reference × Nat :=
  doneBlock s.milestoneDone s.groupByEpic msord (epStage s tickets epics eord c).milestonesM
    (epStage s tickets epics eord c).tasks (epStage s tickets epics eord c).counter

/-- The dependency-resolved leaf tasks as run inside `buildScenario`. -/
def leafStage (s : Serializer) (tickets : List Ticket) (c : Nat) : List PlanTask :=
  (resolveDeps (p1Stage s tickets c).keyToTask tickets (p1Stage s tickets c).taskPtrs).1

/-- `buildTasksFromTickets` as invoked by `buildScenario`. -/
def btStage (s : Serializer) (tickets : List Ticket) (epics : List (String × Ticket))
    (eord msord : List String) (c : Nat) :
    List PlanTask × List Reference × List (String × String) × Nat :=
  buildTasksFromTickets s tickets (resStage tickets c).a2r epics eord msord
    (resStage tickets c).counter

theorem epicStage_true (epics : List (String × Ticket))
    (ch : List (String × List Reference)) (eord : List String)
    (refs : List Reference) (c : Nat) :
    epicStage true epics ch eord refs c
      = epicPass epics ch eord { tasks := [], refs := refs, milestonesM := [], counter := c } :=
  rfl

theorem epicStage_tasks (gbe : Bool) (epics : List (String × Ticket))
    (ch : List (String × List Reference)) (eord : List String)
    (refs : List Reference) (c : Nat) :
    (epicStage gbe epics ch eord refs c).tasks
      = if gbe then epicTasksFor epics ch eord c else [] := by
  cases gbe
  · simp [epicStage]
  · rw [epicStage_true, epicPass_tasks]
    simp

theorem epicStage_refs (gbe : Bool) (epics : List (String × Ticket))
    (ch : List (String × List Reference)) (eord : List String)
    (refs : List Reference) (c : Nat) :
    (epicStage gbe epics ch eord refs c).refs
      = refs ++ (if gbe then
          (epicTasksFor epics ch eord c).map (fun t => ({ idRef := t.id } : Reference))
        else []) := by
  cases gbe
  · simp [epicStage]
  · rw [epicStage_true, epicPass_refs]
    simp

theorem epicStage_counter (gbe : Bool) (epics : List (String × Ticket))
    (ch : List (String × List Reference)) (eord : List String)
    (refs : List Reference) (c : Nat) :
    (epicStage gbe epics ch eord refs c).counter
      = if gbe then c + 2 * eord.length else c := by
  cases gbe
  · simp [epicStage]
  · rw [epicStage_true, epicPass_counter]
    simp

theorem buildTasksFromTickets_eq (s : Serializer) (tickets : List Ticket)
    (a2r : List (String × String)) (epics : List (String × Ticket))
    (eord msord : List String) (c : Nat) :
    buildTasksFromTickets s tickets a2r epics eord msord c
      = ((epicStage s.groupByEpic epics (pass1 s.groupByEpic a2r tickets c).epicChildren
            eord (pass1 s.groupByEpic a2r tickets c).refs
            (pass1 s.groupByEpic a2r tickets c).counter).tasks
          ++ (doneBlock s.milestoneDone s.groupByEpic msord
              (epicStage s.groupByEpic epics (pass1 s.groupByEpic a2r tickets c).epicChildren
                eord (pass1 s.groupByEpic a2r tickets c).refs
                (pass1 s.groupByEpic a2r tickets c).counter).milestonesM
              (epicStage s.groupByEpic epics (pass1 s.groupByEpic a2r tickets c).epicChildren
                eord (pass1 s.groupByEpic a2r tickets c).refs
                (pass1 s.groupByEpic a2r tickets c).counter).tasks
              (epicStage s.groupByEpic epics (pass1 s.groupByEpic a2r tickets c).epicChildren
                eord (pass1 s.groupByEpic a2r tickets c).refs
                (pass1 s.groupByEpic a2r tickets c).counter).counter).1
          ++ (resolveDeps (pass1 s.groupByEpic a2r tickets c).keyToTask tickets
              (pass1 s.groupByEpic a2r tickets c).taskPtrs).1,
        (epicStage s.groupByEpic epics (pass1 s.groupByEpic a2r tickets c).epicChildren
            eord (pass1 s.groupByEpic a2r tickets c).refs
            (pass1 s.groupByEpic a2r tickets c).counter).refs
          ++ (doneBlock s.milestoneDone s.groupByEpic msord
              (epicStage s.groupByEpic epics (pass1 s.groupByEpic a2r tickets c).epicChildren
                eord (pass1 s.groupByEpic a2r tickets c).refs
                (pass1 s.groupByEpic a2r tickets c).counter).milestonesM
              (epicStage s.groupByEpic epics (pass1 s.groupByEpic a2r tickets c).epicChildren
                eord (pass1 s.groupByEpic a2r tickets c).refs
                (pass1 s.groupByEpic a2r tickets c).counter).tasks
              (epicStage s.groupByEpic epics (pass1 s.groupByEpic a2r tickets c).epicChildren
                eord (pass1 s.groupByEpic a2r tickets c).refs
                (pass1 s.groupByEpic a2r tickets c).counter).counter).2.1,
        (resolveDeps (pass1 s.groupByEpic a2r tickets c).keyToTask tickets
            (pass1 s.groupByEpic a2r tickets c).taskPtrs).2,
        (doneBlock s.milestoneDone s.groupByEpic msord
            (epicStage s.groupByEpic epics (pass1 s.groupByEpic a2r tickets c).epicChildren
              eord (pass1 s.groupByEpic a2r tickets c).refs
              (pass1 s.groupByEpic a2r tickets c).counter).milestonesM
            (epicStage s.groupByEpic epics (pass1 s.groupByEpic a2r tickets c).epicChildren
              eord (pass1 s.groupByEpic a2r tickets c).refs
              (pass1 s.groupByEpic a2r tickets c).counter).tasks
            (epicStage s.groupByEpic epics (pass1 s.groupByEpic a2r tickets c).epicChildren
              eord (pass1 s.groupByEpic a2r tickets c).refs
              (pass1 s.groupByEpic a2r tickets c).counter).counter).2.2) := rfl

theorem buildScenarioDoc_tasks (s : Serializer) (tickets : List Ticket)
    (epics : List (String × Ticket)) (eord msord : List String) (c : Nat) :
    (buildScenarioDoc s tickets epics eord msord c).1.tasks
      = ({ id := "t-1", type := "group", recalculate := "duration",
           childTasks := (btStage s tickets epics eord msord c).2.1 } : PlanTask)
        :: (btStage s tickets epics eord msord c).1 := rfl

/-! ## Claim C2 -/

/-- C2 (corrected): the emitted task list is the single synthetic root
group first (children = all top-level references), then — contrary to the
claim's order — the epic group/milestone pairs (in map-visiting order),
then the "Done" milestone if present, and the leaf tasks in input-ticket
order come **last**, not right after the root. -/
theorem claim_C2 (s : Serializer) (tickets : List Ticket)
    (epics : List (String × Ticket)) (eord msord : List String) (c : Nat) :
    (buildScenarioDoc s tickets epics eord msord c).1.tasks
      = ({ id := "t-1", type := "group", recalculate := "duration",
           childTasks := (btStage s tickets epics eord msord c).2.1 } : PlanTask)
        :: ((if s.groupByEpic then
              epicTasksFor epics (p1Stage s tickets c).epicChildren eord
                (p1Stage s tickets c).counter
            else [])
          ++ (dbStage s tickets epics eord msord c).1
          ++ leafStage s tickets c)
    ∧ (leafStage s tickets c).length = tickets.length
    ∧ (∀ i : Nat, (leafStage s tickets c)[i]?.map (fun t => t.title)
        = tickets[i]?.map fun t => t.summary)
    ∧ (∀ i : Nat, (leafStage s tickets c)[i]?.map (fun t => t.id)
        = tickets[i]?.map fun _ => "t" ++ natToDec ((resStage tickets c).counter + i + 1)) := by
  have hps : (p1Stage s tickets c).taskPtrs
      = leafTasksFor (resStage tickets c).a2r tickets (resStage tickets c).counter := by
    unfold p1Stage pass1
    rw [leafPass_taskPtrs]
    simp [leafAcc0]
  have hleaf : ∀ i : Nat, (leafStage s tickets c)[i]?
      = tickets[i]?.map fun t =>
          ({ (leafTaskOf ("t" ++ natToDec ((resStage tickets c).counter + i + 1))
              (resStage tickets c).a2r t) with
            prerequisites := resolvedPrereqs (p1Stage s tickets c).keyToTask t } : PlanTask) := by
    intro i
    unfold leafStage
    rw [resolveDeps_fst_get?, hps]
    have hL : (leafTasksFor (resStage tickets c).a2r tickets (resStage tickets c).counter)[i]?
        = (tickets[i]?).map fun t =>
            leafTaskOf ("t" ++ natToDec ((resStage tickets c).counter + i + 1))
              (resStage tickets c).a2r t := by
      rw [← List.get?_eq_getElem?, ← List.get?_eq_getElem?]
      exact leafTasksFor_get? _ tickets _ i
    rw [hL]
    cases tickets[i]? with
    | none => rfl
    | some t => simp [leafTaskOf]
  refine ⟨?_, ?_, ?_, ?_⟩
  · rw [buildScenarioDoc_tasks]
    unfold btStage
    rw [buildTasksFromTickets_eq]
    simp only []
    rw [epicStage_tasks]
    unfold dbStage epStage p1Stage leafStage
    rw [epicStage_tasks, epicStage_counter]
    simp only [pass1, leafAcc0, List.append_assoc]
    rfl
  · unfold leafStage
    rw [resolveDeps_length, hps, leafTasksFor_length]
    omega
  · intro i
    rw [hleaf i]
    cases tickets[i]? with
    | none => rfl
    | some t => simp [leafTaskOf]
  · intro i
    rw [hleaf i]
    cases tickets[i]? with
    | none => rfl
    | some t => simp [leafTaskOf]

/-- Configuration and inputs on which the claimed composition order is
refuted: one ticket in one epic, grouped. -/
def c2s : Serializer := { projectName := "E", groupByEpic := true, milestoneDone := false }

/-- A ticket living in epic `EPIC-1`. -/
def c2ticket : Ticket := { key := "TASK-1", summary := "Task in Epic", epicLink := "EPIC-1" }

/-- The epic map entry for `EPIC-1`. -/
def c2epics : List (String × Ticket) :=
  [("EPIC-1", { key := "EPIC-1", summary := "Big Epic", status := "In Progress" })]

/-- C2 counterexample: with one grouped ticket the claim predicts the task
list `[root, leaf, epic group, epic milestone]` — the leaf right after the
root — but the build emits `[root, epic group, epic milestone, leaf]`: the
task at position 1 is the epic group titled "Big Epic", not the leaf. -/
theorem claim_C2_counterexample :
    ((buildScenarioDoc c2s [c2ticket] c2epics ["EPIC-1"] ["EPIC-1"] 0).1.tasks.map
        fun t => (t.title, t.type))
      = [("", "group"), ("Big Epic", "group"), ("Big Epic Done", "milestone"),
         ("Task in Epic", "")]
    ∧ c2ticket.summary = "Task in Epic"
    ∧ ["EPIC-1"].Perm (mapKeys (p1Stage c2s [c2ticket] 0).epicChildren) := by
  refine ⟨by decide, rfl, by decide⟩

/-! ## Claim C4 -/

theorem mapPut_keys_nodup {α : Type} (m : List (String × α)) (k : String) (v : α)
    (h : (mapKeys m).Nodup) : (mapKeys (mapPut m k v)).Nodup := by
  by_cases hk : k ∈ mapKeys m
  · rw [mapKeys_mapPut_mem _ _ _ hk]; exact h
  · rw [mapKeys_mapPut_not_mem _ _ _ hk]
    rw [List.nodup_append]
    exact ⟨h, List.nodup_singleton _, by simpa using hk⟩

theorem leafPass_epicChildren_keys_nodup (gbe : Bool) (a2r : List (String × String)) :
    ∀ (ts : List Ticket) (acc : LeafAcc), (mapKeys acc.epicChildren).Nodup →
      (mapKeys (leafPass gbe a2r ts acc).epicChildren).Nodup := by
  intro ts
  induction ts with
  | nil => intro acc h; exact h
  | cons t ts ih =>
      intro acc h
      rw [leafPass]
      split
      · exact ih _ (mapPut_keys_nodup _ _ _ h)
      · exact ih _ h

/-- The milestone tasks of the epic loop, in visiting order. -/
def msTasksFor (epics : List (String × Ticket)) : List String → Nat → List PlanTask
  | [], _ => []
  | k :: ks, c => epicMsTask epics k c :: msTasksFor epics ks (c + 2)

theorem epicTasksFor_filter_ms (epics : List (String × Ticket))
    (ch : List (String × List Reference)) :
    ∀ (ks : List String) (c : Nat),
      (epicTasksFor epics ch ks c).filter (fun t => t.type = "milestone")
        = msTasksFor epics ks c := by
  intro ks
  induction ks with
  | nil => intro c; simp [epicTasksFor, msTasksFor]
  | cons k ks ih =>
      intro c
      rw [epicTasksFor, msTasksFor]
      rw [List.filter_cons, List.filter_cons]
      have h1 : ((epicGroupTask epics ch k c).type = "milestone") = False := by
        simp [epicGroupTask]
      have h2 : ((epicMsTask epics k c).type = "milestone") = True := by
        simp [epicMsTask]
      rw [ih]
      simp [h1, h2]

theorem map_idx_eq_msTasksFor (epics : List (String × Ticket)) :
    ∀ (ks : List String) (c : Nat), ks.Nodup →
      ks.map (fun k =>
          ({ idRef := (epicMsTask epics k (c + 2 * ks.indexOf k)).id } : PrerequisiteTask))
        = (msTasksFor epics ks c).map fun t => ({ idRef := t.id } : PrerequisiteTask) := by
  intro ks
  induction ks with
  | nil => intro c _; simp [msTasksFor]
  | cons k ks ih =>
      intro c hnd
      rw [msTasksFor, List.map_cons, List.map_cons]
      congr 1
      · rw [List.indexOf_cons_self]
        simp
      · rw [← ih (c + 2) (List.nodup_cons.1 hnd).2]
        apply List.map_congr_left
        intro x hx
        have hne : x ≠ k := by
          intro h; subst h; exact (List.nodup_cons.1 hnd).1 hx
        rw [List.indexOf_cons_ne _ (fun h => hne h.symm)]
        congr 3
        omega

theorem filterMap_mapGet_eq_map {α β : Type} (l : List String)
    (f : String → Option α) (g : α → β) (F : String → α)
    (h : ∀ k ∈ l, f k = some (F k)) :
    l.filterMap (fun k => (f k).map g) = l.map fun k => g (F k) := by
  induction l with
  | nil => simp
  | cons k ks ih =>
      rw [List.filterMap_cons, List.map_cons, h k (List.mem_cons_self _ _)]
      simp only [Option.map_some']
      congr 1
      exact ih fun x hx => h x (List.mem_cons_of_mem _ hx)

/-- C4 (corrected): with `addDoneMilestone` on and grouping on, exactly one
"Done" milestone is created iff at least one epic milestone exists; its
prerequisites are exactly the epic milestones — but in the order the
`epicMilestones` map is visited (`msOrder`), not in creation order; as a
multiset they equal the created epic milestones (the `"milestone"`-typed
tasks of the epic block).  Without grouping, the prerequisite scan runs
over the tasks built so far, which contain no milestone, so no "Done" task
is created. -/
theorem claim_C4 (s : Serializer) (tickets : List Ticket)
    (epics : List (String × Ticket)) (eord msord : List String) (c : Nat)
    (hmd : s.milestoneDone = true) :
    (s.groupByEpic = true →
      eord.Perm (mapKeys (p1Stage s tickets c).epicChildren) →
      msord.Perm eord →
      donePrereqsOf true msord (epStage s tickets epics eord c).milestonesM
          (epStage s tickets epics eord c).tasks
        = msord.map (fun k =>
            ({ idRef := (epicMsTask epics k ((p1Stage s tickets c).counter
                + 2 * eord.indexOf k)).id } : PrerequisiteTask))
      ∧ (donePrereqsOf true msord (epStage s tickets epics eord c).milestonesM
          (epStage s tickets epics eord c).tasks).Perm
          (((epicTasksFor epics (p1Stage s tickets c).epicChildren eord
              (p1Stage s tickets c).counter).filter (fun t => t.type = "milestone")).map
            fun t => ({ idRef := t.id } : PrerequisiteTask))
      ∧ (dbStage s tickets epics eord msord c).1
          = (if msord = [] then []
             else [{ id := "t" ++ natToDec ((epStage s tickets epics eord c).counter + 1),
                     title := "Done", type := "milestone", recalculate := "duration",
                     prerequisites :=
                       donePrereqsOf true msord (epStage s tickets epics eord c).milestonesM
                         (epStage s tickets epics eord c).tasks }]))
    ∧ (s.groupByEpic = false → (dbStage s tickets epics eord msord c).1 = []) := by
  constructor
  · intro hg hv hmv
    have hnd : eord.Nodup := by
      refine hv.nodup_iff.2 ?_
      unfold p1Stage pass1
      exact leafPass_epicChildren_keys_nodup _ _ tickets (leafAcc0 _)
        (by simp [leafAcc0, mapKeys])
    have hems : (epStage s tickets epics eord c).milestonesM
        = (epicPass epics (p1Stage s tickets c).epicChildren eord
            { tasks := [], refs := (p1Stage s tickets c).refs, milestonesM := [],
              counter := (p1Stage s tickets c).counter }).milestonesM := by
      unfold epStage
      rw [hg, epicStage_true]
    have hget : ∀ k ∈ msord,
        mapGet (epStage s tickets epics eord c).milestonesM k
          = some (epicMsTask epics k ((p1Stage s tickets c).counter + 2 * eord.indexOf k)) := by
      intro k hk
      rw [hems]
      have hke : k ∈ eord := hmv.subset hk
      have := epicPass_milestonesM_mem epics (p1Stage s tickets c).epicChildren eord
        { tasks := [], refs := (p1Stage s tickets c).refs, milestonesM := [],
          counter := (p1Stage s tickets c).counter } k hnd hke
      simpa using this
    have h1 : donePrereqsOf true msord (epStage s tickets epics eord c).milestonesM
          (epStage s tickets epics eord c).tasks
        = msord.map (fun k =>
            ({ idRef := (epicMsTask epics k ((p1Stage s tickets c).counter
                + 2 * eord.indexOf k)).id } : PrerequisiteTask)) := by
      unfold donePrereqsOf
      rw [if_pos rfl]
      exact filterMap_mapGet_eq_map msord _ _ _ hget
    refine ⟨h1, ?_, ?_⟩
    · rw [h1, epicTasksFor_filter_ms]
      rw [← map_idx_eq_msTasksFor epics eord (p1Stage s tickets c).counter hnd]
      exact hmv.map _
    · unfold dbStage
      rw [hmd, hg]
      unfold doneBlock
      rw [if_pos rfl]
      by_cases hms : msord = []
      · subst hms
        rw [if_pos rfl]
        simp [donePrereqsOf]
      · rw [if_neg hms]
        have hne : donePrereqsOf true msord (epStage s tickets epics eord c).milestonesM
            (epStage s tickets epics eord c).tasks ≠ [] := by
          rw [h1]
          intro hx
          exact hms (List.map_eq_nil_iff.1 hx)
        rw [if_pos hne]
  · intro hg
    unfold dbStage epStage
    rw [hg]
    simp only [epicStage]
    rw [if_neg (Bool.false_ne_true)]
    rw [doneBlock_false_nil]

/-- Grouping + Done-milestone configuration. -/
def c4s : Serializer := { projectName := "M", groupByEpic := true, milestoneDone := true }

/-- Two tickets in two distinct epics. -/
def c4tickets : List Ticket :=
  [{ key := "T1", epicLink := "E1" }, { key := "T2", epicLink := "E2" }]

/-- The two epics' map entries. -/
def c4epics : List (String × Ticket) :=
  [("E1", { key := "E1", summary := "Epic One" }),
   ("E2", { key := "E2", summary := "Epic Two" })]

theorem claim_C4_witness :
    c4s.milestoneDone = true ∧
    ((c4s.groupByEpic = true →
      (["E1"] : List String).Perm (mapKeys (p1Stage c4s [c2ticket] 0).epicChildren) →
      (["E1"] : List String).Perm ["E1"] →
      donePrereqsOf true ["E1"] (epStage c4s [c2ticket] c2epics ["E1"] 0).milestonesM
          (epStage c4s [c2ticket] c2epics ["E1"] 0).tasks
        = (["E1"] : List String).map (fun k =>
            ({ idRef := (epicMsTask c2epics k ((p1Stage c4s [c2ticket] 0).counter
                + 2 * (["E1"] : List String).indexOf k)).id } : PrerequisiteTask))
      ∧ (donePrereqsOf true ["E1"] (epStage c4s [c2ticket] c2epics ["E1"] 0).milestonesM
          (epStage c4s [c2ticket] c2epics ["E1"] 0).tasks).Perm
          (((epicTasksFor c2epics (p1Stage c4s [c2ticket] 0).epicChildren ["E1"]
              (p1Stage c4s [c2ticket] 0).counter).filter (fun t => t.type = "milestone")).map
            fun t => ({ idRef := t.id } : PrerequisiteTask))
      ∧ (dbStage c4s [c2ticket] c2epics ["E1"] ["E1"] 0).1
          = (if (["E1"] : List String) = [] then []
             else [{ id := "t" ++ natToDec ((epStage c4s [c2ticket] c2epics ["E1"] 0).counter + 1),
                     title := "Done", type := "milestone", recalculate := "duration",
                     prerequisites :=
                       donePrereqsOf true ["E1"] (epStage c4s [c2ticket] c2epics ["E1"] 0).milestonesM
                         (epStage c4s [c2ticket] c2epics ["E1"] 0).tasks }]))
    ∧ (c4s.groupByEpic = false → (dbStage c4s [c2ticket] c2epics ["E1"] ["E1"] 0).1 = [])) :=
  ⟨rfl, claim_C4 c4s [c2ticket] c2epics ["E1"] ["E1"] 0 rfl⟩

/-- C4 counterexample: two epics, creation order `E1, E2` (epic milestones
`t4` then `t6`), but the `epicMilestones` map visited in the order
`E2, E1` — a legitimate Go map range order — gives the "Done" task the
prerequisite list `[t6, t4]`, which is not the creation order `[t4, t6]`
the claim asserts. -/
theorem claim_C4_counterexample :
    ((buildTasksFromTickets c4s c4tickets [] c4epics ["E1", "E2"] ["E2", "E1"] 0).1[4]?).map
        (fun t => (t.title, t.prerequisites.map fun p => p.idRef))
      = some ("Done", ["t6", "t4"])
    ∧ (((buildTasksFromTickets c4s c4tickets [] c4epics ["E1", "E2"] ["E2", "E1"] 0).1.filter
          (fun t => t.type = "milestone" ∧ t.title ≠ "Done")).map fun t => t.id)
        = ["t4", "t6"]
    ∧ (["E1", "E2"] : List String).Perm (mapKeys (pass1 true [] c4tickets 0).epicChildren)
    ∧ (["E2", "E1"] : List String).Perm ["E1", "E2"]
    ∧ (["t6", "t4"] : List String) ≠ ["t4", "t6"] := by
  refine ⟨by decide, by decide, by decide, by decide, by decide⟩

/-! ## Claim C1 -/

theorem epicTasksFor_length (epics : List (String × Ticket))
    (ch : List (String × List Reference)) :
    ∀ (ks : List String) (c : Nat), (epicTasksFor epics ch ks c).length = 2 * ks.length := by
  intro ks
  induction ks with
  | nil => intro c; simp [epicTasksFor]
  | cons k ks ih =>
      intro c
      rw [epicTasksFor]
      simp [ih]
      omega

theorem epicTasksFor_get2 (epics : List (String × Ticket))
    (ch : List (String × List Reference)) :
    ∀ (ks : List String) (c : Nat) (i : Nat), ∀ hi : i < ks.length,
      (epicTasksFor epics ch ks c)[2 * i]? = some (epicGroupTask epics ch ks[i] (c + 2 * i))
      ∧ (epicTasksFor epics ch ks c)[2 * i + 1]?
          = some (epicMsTask epics ks[i] (c + 2 * i)) := by
  intro ks
  induction ks with
  | nil => intro c i hi; simp at hi
  | cons k ks ih =>
      intro c i hi
      cases i with
      | zero => simp [epicTasksFor]
      | succ j =>
          have hj : j < ks.length := by simpa using Nat.lt_of_succ_lt_succ hi
          obtain ⟨hg, hm⟩ := ih (c + 2) j hj
          have e1 : 2 * (j + 1) = (2 * j + 1) + 1 := by omega
          have e2 : 2 * (j + 1) + 1 = ((2 * j) + 1 + 1) + 1 := by omega
          have hga : (k :: ks)[j + 1] = ks[j] := List.getElem_cons_succ ..
          constructor
          · rw [e1, epicTasksFor, List.getElem?_cons_succ, List.getElem?_cons_succ, hg, hga]
            congr 2
            omega
          · rw [e2, epicTasksFor, List.getElem?_cons_succ, List.getElem?_cons_succ]
            have : ((2 * j) + 1 : Nat) = 2 * j + 1 := rfl
            rw [this, hm, hga]
            congr 2
            omega
theorem epicKeysFor_mem (gbe : Bool) :
    ∀ (ts : List Ticket) (seen : List String) (k : String),
      k ∈ epicKeysFor gbe ts seen →
      k ∉ seen ∧ k ≠ "" ∧ ∃ t ∈ ts, t.epicLink = k := by
  intro ts
  induction ts with
  | nil => intro seen k h; simp [epicKeysFor] at h
  | cons t ts ih =>
      intro seen k h
      rw [epicKeysFor] at h
      split at h
      · rename_i hc
        rcases List.mem_cons.1 h with rfl | h'
        · exact ⟨hc.2.2, hc.2.1, t, List.mem_cons_self _ _, rfl⟩
        · obtain ⟨hns, hne, t', ht', ha⟩ := ih _ _ h'
          refine ⟨fun hs => hns (List.mem_append.2 (Or.inl hs)), hne,
            t', List.mem_cons_of_mem _ ht', ha⟩
      · obtain ⟨hns, hne, t', ht', ha⟩ := ih _ _ h
        exact ⟨hns, hne, t', List.mem_cons_of_mem _ ht', ha⟩

theorem epicMembersFor_ne_nil (k : String) :
    ∀ (ts : List Ticket) (c : Nat), (∃ t ∈ ts, t.epicLink = k) →
      epicMembersFor ts c k ≠ [] := by
  intro ts
  induction ts with
  | nil => rintro c ⟨t, ht, _⟩; simp at ht
  | cons t ts ih =>
      rintro c ⟨t', ht', ha⟩
      rw [epicMembersFor]
      rcases List.mem_cons.1 ht' with rfl | ht''
      · rw [if_pos ha]
        simp
      · intro hx
        rcases List.append_eq_nil.1 hx with ⟨_, h2⟩
        exact ih (c + 1) ⟨t', ht'', ha⟩ h2

/-- C1 (corrected): with grouping on, the builder creates — for each epic
key with at least one member ticket, but in the (unspecified) order the
`epicToChildRefs` map is visited rather than first-encounter order —
exactly one group task (title = epic summary, or the key itself when the
key is absent from the epic map; kind `"group"`; children = the member
tickets' task ids in input order; user data = epic key, link, status)
immediately followed by exactly one milestone task titled
`"<epic summary> Done"` whose sole prerequisite is the group task's id;
both become top-level references, group first then its milestone.  The
visited keys are exactly the epic keys in first-encounter order, as a set. -/
theorem claim_C1 (s : Serializer) (tickets : List Ticket)
    (epics : List (String × Ticket)) (eord msord : List String) (c : Nat)
    (hg : s.groupByEpic = true)
    (hv : eord.Perm (mapKeys (p1Stage s tickets c).epicChildren)) :
    eord.Nodup
    ∧ mapKeys (p1Stage s tickets c).epicChildren = epicKeysFor true tickets []
    ∧ (∀ k ∈ eord, k ≠ ""
        ∧ (∃ t ∈ tickets, t.epicLink = k)
        ∧ (mapGet (p1Stage s tickets c).epicChildren k).getD []
            = epicMembersFor tickets (resStage tickets c).counter k
        ∧ epicMembersFor tickets (resStage tickets c).counter k ≠ [])
    ∧ (∀ i : Nat, ∀ hi : i < eord.length,
        (btStage s tickets epics eord msord c).1[2 * i]?
          = some { id := "t" ++ natToDec ((p1Stage s tickets c).counter + 2 * i + 1),
                   title := (epicInfo epics eord[i]).1,
                   type := "group",
                   recalculate := "duration",
                   childTasks := epicMembersFor tickets (resStage tickets c).counter eord[i],
                   userData := some { items :=
                     [{ key := "Jira Key", value := eord[i] },
                      { key := "Jira Link", value := (epicInfo epics eord[i]).2.1 },
                      { key := "Jira Status", value := (epicInfo epics eord[i]).2.2 }] } }
        ∧ (btStage s tickets epics eord msord c).1[2 * i + 1]?
          = some { id := "t" ++ natToDec ((p1Stage s tickets c).counter + 2 * i + 2),
                   title := (epicInfo epics eord[i]).1 ++ " Done",
                   type := "milestone",
                   recalculate := "duration",
                   prerequisites :=
                     [{ idRef := "t" ++ natToDec ((p1Stage s tickets c).counter + 2 * i + 1) }] })
    ∧ (btStage s tickets epics eord msord c).2.1
        = topRefsFor true tickets (resStage tickets c).counter
          ++ (epicTasksFor epics (p1Stage s tickets c).epicChildren eord
              (p1Stage s tickets c).counter).map (fun t => ({ idRef := t.id } : Reference))
          ++ (dbStage s tickets epics eord msord c).2.1
    ∧ (∀ i : Nat, ∀ hi : i < eord.length,
        ((epicTasksFor epics (p1Stage s tickets c).epicChildren eord
            (p1Stage s tickets c).counter).map
          (fun t => ({ idRef := t.id } : Reference)))[2 * i]?
          = some { idRef := "t" ++ natToDec ((p1Stage s tickets c).counter + 2 * i + 1) }
        ∧ ((epicTasksFor epics (p1Stage s tickets c).epicChildren eord
            (p1Stage s tickets c).counter).map
          (fun t => ({ idRef := t.id } : Reference)))[2 * i + 1]?
          = some { idRef := "t" ++ natToDec ((p1Stage s tickets c).counter + 2 * i + 2) }) := by
  have hkeys : mapKeys (p1Stage s tickets c).epicChildren = epicKeysFor s.groupByEpic tickets [] := by
    unfold p1Stage pass1
    rw [leafPass_epicKeys]
    simp [leafAcc0, mapKeys]
  have hnd : eord.Nodup := by
    refine hv.nodup_iff.2 ?_
    unfold p1Stage pass1
    exact leafPass_epicChildren_keys_nodup _ _ tickets (leafAcc0 _)
      (by simp [leafAcc0, mapKeys])
  have hmem : ∀ k ∈ eord, k ≠ ""
      ∧ (∃ t ∈ tickets, t.epicLink = k)
      ∧ (mapGet (p1Stage s tickets c).epicChildren k).getD []
          = epicMembersFor tickets (resStage tickets c).counter k
      ∧ epicMembersFor tickets (resStage tickets c).counter k ≠ [] := by
    intro k hk
    have hkk : k ∈ mapKeys (p1Stage s tickets c).epicChildren := hv.subset hk
    rw [hkeys] at hkk
    obtain ⟨_, hne, hexists⟩ := epicKeysFor_mem s.groupByEpic tickets [] k hkk
    have hchild : (mapGet (p1Stage s tickets c).epicChildren k).getD []
        = epicMembersFor tickets (resStage tickets c).counter k := by
      unfold p1Stage pass1
      rw [hg]
      rw [leafPass_epicChildren_getD _ tickets (leafAcc0 _) k hne]
      simp [leafAcc0, mapGet]
    exact ⟨hne, hexists, hchild, epicMembersFor_ne_nil k tickets _ hexists⟩
  have hbt1 : (btStage s tickets epics eord msord c).1
      = epicTasksFor epics (p1Stage s tickets c).epicChildren eord
          (p1Stage s tickets c).counter
        ++ ((dbStage s tickets epics eord msord c).1 ++ leafStage s tickets c) := by
    unfold btStage dbStage leafStage epStage p1Stage
    rw [buildTasksFromTickets_eq]
    simp only []
    rw [epicStage_tasks, hg]
    simp [List.append_assoc]
  have hbt2 : (btStage s tickets epics eord msord c).2.1
      = topRefsFor true tickets (resStage tickets c).counter
        ++ (epicTasksFor epics (p1Stage s tickets c).epicChildren eord
            (p1Stage s tickets c).counter).map (fun t => ({ idRef := t.id } : Reference))
        ++ (dbStage s tickets epics eord msord c).2.1 := by
    unfold btStage dbStage epStage p1Stage
    rw [buildTasksFromTickets_eq]
    simp only []
    rw [epicStage_refs, hg]
    unfold pass1
    rw [leafPass_refs]
    simp [leafAcc0, List.append_assoc]
  refine ⟨hnd, by rw [hkeys, hg], hmem, ?_, hbt2, ?_⟩
  · intro i hi
    have hlen : 2 * i + 1 < (epicTasksFor epics (p1Stage s tickets c).epicChildren eord
        (p1Stage s tickets c).counter).length := by
      rw [epicTasksFor_length]
      omega
    obtain ⟨hgget, hmget⟩ := epicTasksFor_get2 epics (p1Stage s tickets c).epicChildren
      eord (p1Stage s tickets c).counter i hi
    have hchild := (hmem eord[i] (List.getElem_mem hi)).2.2.1
    constructor
    · rw [hbt1, List.getElem?_append_left (by omega), hgget]
      unfold epicGroupTask
      rw [hchild]
    · rw [hbt1, List.getElem?_append_left hlen, hmget]
      rfl
  · intro i hi
    obtain ⟨hgget, hmget⟩ := epicTasksFor_get2 epics (p1Stage s tickets c).epicChildren
      eord (p1Stage s tickets c).counter i hi
    constructor
    · rw [List.getElem?_map, hgget]
      rfl
    · rw [List.getElem?_map, hmget]
      rfl

theorem claim_C1_witness :
    c2s.groupByEpic = true
    ∧ (["EPIC-1"] : List String).Perm (mapKeys (p1Stage c2s [c2ticket] 0).epicChildren)
    ∧ ((["EPIC-1"] : List String).Nodup
      ∧ mapKeys (p1Stage c2s [c2ticket] 0).epicChildren = epicKeysFor true [c2ticket] []
      ∧ (∀ k ∈ (["EPIC-1"] : List String), k ≠ ""
          ∧ (∃ t ∈ [c2ticket], t.epicLink = k)
          ∧ (mapGet (p1Stage c2s [c2ticket] 0).epicChildren k).getD []
              = epicMembersFor [c2ticket] (resStage [c2ticket] 0).counter k
          ∧ epicMembersFor [c2ticket] (resStage [c2ticket] 0).counter k ≠ [])
      ∧ (∀ i : Nat, ∀ hi : i < (["EPIC-1"] : List String).length,
          (btStage c2s [c2ticket] c2epics ["EPIC-1"] ["EPIC-1"] 0).1[2 * i]?
            = some { id := "t" ++ natToDec ((p1Stage c2s [c2ticket] 0).counter + 2 * i + 1),
                     title := (epicInfo c2epics (["EPIC-1"] : List String)[i]).1,
                     type := "group",
                     recalculate := "duration",
                     childTasks := epicMembersFor [c2ticket] (resStage [c2ticket] 0).counter
                       (["EPIC-1"] : List String)[i],
                     userData := some { items :=
                       [{ key := "Jira Key", value := (["EPIC-1"] : List String)[i] },
                        { key := "Jira Link",
                          value := (epicInfo c2epics (["EPIC-1"] : List String)[i]).2.1 },
                        { key := "Jira Status",
                          value := (epicInfo c2epics (["EPIC-1"] : List String)[i]).2.2 }] } }
          ∧ (btStage c2s [c2ticket] c2epics ["EPIC-1"] ["EPIC-1"] 0).1[2 * i + 1]?
            = some { id := "t" ++ natToDec ((p1Stage c2s [c2ticket] 0).counter + 2 * i + 2),
                     title := (epicInfo c2epics (["EPIC-1"] : List String)[i]).1 ++ " Done",
                     type := "milestone",
                     recalculate := "duration",
                     prerequisites :=
                       [{ idRef := "t" ++ natToDec ((p1Stage c2s [c2ticket] 0).counter
                           + 2 * i + 1) }] })
      ∧ (btStage c2s [c2ticket] c2epics ["EPIC-1"] ["EPIC-1"] 0).2.1
          = topRefsFor true [c2ticket] (resStage [c2ticket] 0).counter
            ++ (epicTasksFor c2epics (p1Stage c2s [c2ticket] 0).epicChildren ["EPIC-1"]
                (p1Stage c2s [c2ticket] 0).counter).map
                  (fun t => ({ idRef := t.id } : Reference))
            ++ (dbStage c2s [c2ticket] c2epics ["EPIC-1"] ["EPIC-1"] 0).2.1
      ∧ (∀ i : Nat, ∀ hi : i < (["EPIC-1"] : List String).length,
          ((epicTasksFor c2epics (p1Stage c2s [c2ticket] 0).epicChildren ["EPIC-1"]
              (p1Stage c2s [c2ticket] 0).counter).map
            (fun t => ({ idRef := t.id } : Reference)))[2 * i]?
            = some { idRef := "t" ++ natToDec ((p1Stage c2s [c2ticket] 0).counter + 2 * i + 1) }
          ∧ ((epicTasksFor c2epics (p1Stage c2s [c2ticket] 0).epicChildren ["EPIC-1"]
              (p1Stage c2s [c2ticket] 0).counter).map
            (fun t => ({ idRef := t.id } : Reference)))[2 * i + 1]?
            = some { idRef := "t" ++ natToDec ((p1Stage c2s [c2ticket] 0).counter
                + 2 * i + 2) })) :=
  ⟨rfl, by decide, claim_C1 c2s [c2ticket] c2epics ["EPIC-1"] ["EPIC-1"] 0 rfl (by decide)⟩

/-- C1 counterexample: the first-encounter order of the epic keys is
`E1, E2` (the map's insertion order), but the run that visits the
`epicToChildRefs` map in the order `E2, E1` — a legitimate Go map range
order — emits E2's group/milestone pair first, refuting the claimed
first-encounter ordering. -/
theorem claim_C1_counterexample :
    mapKeys (pass1 true [] c4tickets 0).epicChildren = ["E1", "E2"]
    ∧ (["E2", "E1"] : List String).Perm (mapKeys (pass1 true [] c4tickets 0).epicChildren)
    ∧ ((buildTasksFromTickets c4s c4tickets [] c4epics ["E2", "E1"] ["E2", "E1"] 0).1.map
        fun t => t.title)
      = ["Epic Two", "Epic Two Done", "Epic One", "Epic One Done", "Done", "", ""]
    ∧ (((buildTasksFromTickets c4s c4tickets [] c4epics ["E2", "E1"] ["E2", "E1"] 0).1[0]?).map
        fun t => t.userData.map fun u => u.items.map fun it => it.value)
      = some (some ["E2", "", ""]) := by
  refine ⟨by decide, by decide, by decide, by decide⟩

/-! ## Claim C8 -/

theorem eq_of_perm_length_le_one {l m : List String}
    (h : l.Perm m) (hm : m.length ≤ 1) : l = m := by
  match m, hm with
  | [], _ => exact List.perm_nil.1 h
  | [a], _ => exact List.perm_singleton.1 h

/-- C8 (corrected): the build-then-serialize pipeline is a pure function of
the ticket sequence, epic map, options, counter state **and the two Go map
iteration orders**; whenever the tickets mention at most one distinct epic
key the iteration orders are forced and two runs on identical inputs and
counter state produce identical documents.  With two or more epics the
orders are not forced and byte-identical output is not guaranteed (see the
counterexample: the task titles, which the XML encoder emits in task-list
order, differ between two legitimate runs). -/
theorem claim_C8 (s : Serializer) (tickets : List Ticket)
    (epics : List (String × Ticket)) (c : Nat)
    (eord1 msord1 eord2 msord2 : List String)
    (h1 : eord1.Perm (mapKeys (p1Stage s tickets c).epicChildren))
    (h1m : msord1.Perm eord1)
    (h2 : eord2.Perm (mapKeys (p1Stage s tickets c).epicChildren))
    (h2m : msord2.Perm eord2)
    (hle : (mapKeys (p1Stage s tickets c).epicChildren).length ≤ 1) :
    buildScenarioDoc s tickets epics eord1 msord1 c
      = buildScenarioDoc s tickets epics eord2 msord2 c := by
  have he1 : eord1 = mapKeys (p1Stage s tickets c).epicChildren :=
    eq_of_perm_length_le_one h1 hle
  have he2 : eord2 = mapKeys (p1Stage s tickets c).epicChildren :=
    eq_of_perm_length_le_one h2 hle
  have hm1 : msord1 = eord1 :=
    eq_of_perm_length_le_one h1m (by rw [he1]; exact hle)
  have hm2 : msord2 = eord2 :=
    eq_of_perm_length_le_one h2m (by rw [he2]; exact hle)
  rw [he1, he2, hm1, hm2, he1, he2]

theorem claim_C8_witness :
    (["EPIC-1"] : List String).Perm (mapKeys (p1Stage c2s [c2ticket] 0).epicChildren)
    ∧ (["EPIC-1"] : List String).Perm ["EPIC-1"]
    ∧ (["EPIC-1"] : List String).Perm (mapKeys (p1Stage c2s [c2ticket] 0).epicChildren)
    ∧ (["EPIC-1"] : List String).Perm ["EPIC-1"]
    ∧ (mapKeys (p1Stage c2s [c2ticket] 0).epicChildren).length ≤ 1
    ∧ buildScenarioDoc c2s [c2ticket] c2epics ["EPIC-1"] ["EPIC-1"] 0
        = buildScenarioDoc c2s [c2ticket] c2epics ["EPIC-1"] ["EPIC-1"] 0 :=
  ⟨by decide, by decide, by decide, by decide, by decide,
    claim_C8 c2s [c2ticket] c2epics 0 ["EPIC-1"] ["EPIC-1"] ["EPIC-1"] ["EPIC-1"]
      (by decide) (by decide) (by decide) (by decide) (by decide)⟩

/-- C8 counterexample: identical tickets, epic map, options and counter
state, two legitimate map iteration orders — the emitted task lists carry
their titles in different orders, so the XML bytes (which contain the
title elements in task-list order) differ between the two runs. -/
theorem claim_C8_counterexample :
    (["E1", "E2"] : List String).Perm (mapKeys (p1Stage c4s c4tickets 0).epicChildren)
    ∧ (["E2", "E1"] : List String).Perm (mapKeys (p1Stage c4s c4tickets 0).epicChildren)
    ∧ ((buildScenarioDoc c4s c4tickets c4epics ["E1", "E2"] ["E1", "E2"] 0).1.tasks.map
        fun t => t.title)
      ≠ ((buildScenarioDoc c4s c4tickets c4epics ["E2", "E1"] ["E2", "E1"] 0).1.tasks.map
        fun t => t.title) := by
  refine ⟨by decide, by decide, by decide⟩

/-! ## Claim C7 -/

theorem btStage_fst (s : Serializer) (tickets : List Ticket)
    (epics : List (String × Ticket)) (eord msord : List String) (c : Nat) :
    (btStage s tickets epics eord msord c).1
      = (epStage s tickets epics eord c).tasks
        ++ (dbStage s tickets epics eord msord c).1
        ++ leafStage s tickets c := rfl

/-- The `resourcePass` facts, instantiated at the empty starting
accumulator used by `buildScenario`. -/
theorem resStage_closed (tickets : List Ticket) (c : Nat) :
    mapKeys (resStage tickets c).a2r = (resStage tickets c).staff.map (fun r => r.name) ∧
    (resStage tickets c).crefs
      = (resStage tickets c).staff.map (fun r => ({ idRef := r.id } : Reference)) ∧
    (∀ k v, mapGet (resStage tickets c).a2r k = some v →
      ∃ r ∈ (resStage tickets c).staff, r.name = k ∧ r.id = v) ∧
    (∀ r : Resource, r ∈ (resStage tickets c).staff →
      r.type = "Staff" ∧ r.childResources = []) ∧
    (resStage tickets c).staff.map (fun r => r.name) = newStaffNames tickets [] ∧
    (resStage tickets c).staff.map (fun r => r.id)
      = (ridList (GenerateID c).2 (newStaffNames tickets []).length).map id ∧
    (resStage tickets c).counter = (GenerateID c).2 + (newStaffNames tickets []).length := by
  unfold resStage
  have h := resourcePass_closed tickets { counter := (GenerateID c).2 }
    (by simp [mapKeys]) (by simp) (by intro k v hv; simp [mapGet] at hv)
    (by intro r hr; simp at hr)
  obtain ⟨g1, g2, g3, g4, g5, g6, g7⟩ := h
  refine ⟨g1, g2, g3, g4, ?_, ?_, ?_⟩
  · rw [g5]; simp [mapKeys]
  · rw [g6]; simp [mapKeys]
  · rw [g7]; simp [mapKeys]

/-- C7 (confirmed): the resource list is exactly one Project resource
first, whose children are the Staff resource ids in order of each
assignee's first appearance, plus one Staff resource per distinct
non-empty assignee name (never nested); tickets sharing an assignee name
are assigned the same single Staff resource, and a ticket with an empty
assignee gets no assignment reference. -/
theorem claim_C7 (s : Serializer) (tickets : List Ticket)
    (epics : List (String × Ticket)) (eord msord : List String) (c : Nat)
    (i : Nat) (hi : i < tickets.length) :
    (buildScenarioDoc s tickets epics eord msord c).1.resources
      = ({ id := "r-1", name := s.projectName, type := "Project",
           childResources := (resStage tickets c).staff.map
             (fun r => ({ idRef := r.id } : Reference)) } : Resource)
        :: (resStage tickets c).staff
    ∧ (resStage tickets c).staff.map (fun r => r.name) = newStaffNames tickets []
    ∧ (newStaffNames tickets []).Nodup
    ∧ (∀ x : String, x ∈ newStaffNames tickets []
        ↔ x ≠ "" ∧ ∃ t ∈ tickets, t.assignee = x)
    ∧ (∀ r : Resource, r ∈ (resStage tickets c).staff →
        r.type = "Staff" ∧ r.childResources = [])
    ∧ (leafStage s tickets c).length = tickets.length
    ∧ (tickets[i].assignee = "" →
        (leafStage s tickets c)[i]?.map (fun t => t.assignments) = some [])
    ∧ (tickets[i].assignee ≠ "" →
        ∃ r ∈ (resStage tickets c).staff, r.name = tickets[i].assignee
          ∧ (leafStage s tickets c)[i]?.map (fun t => t.assignments)
              = some [{ idRef := r.id }])
    ∧ (∀ j : Nat, ∀ hj : j < tickets.length, tickets[j].assignee = tickets[i].assignee →
        (leafStage s tickets c)[j]?.map (fun t => t.assignments)
          = (leafStage s tickets c)[i]?.map fun t => t.assignments) := by
  obtain ⟨g1, g2, g3, g4, g5, g6, g7⟩ := resStage_closed tickets c
  have hps : (p1Stage s tickets c).taskPtrs
      = leafTasksFor (resStage tickets c).a2r tickets (resStage tickets c).counter := by
    unfold p1Stage pass1
    rw [leafPass_taskPtrs]
    simp [leafAcc0]
  have hleafget : ∀ (j : Nat) (hj : j < tickets.length),
      (leafStage s tickets c)[j]?.map (fun t => t.assignments)
        = some (if tickets[j].assignee ≠ "" then
            match mapGet (resStage tickets c).a2r tickets[j].assignee with
            | some rid => [({ idRef := rid } : Reference)]
            | none => []
          else []) := by
    intro j hj
    unfold leafStage
    rw [resolveDeps_fst_get?, hps]
    have hL : (leafTasksFor (resStage tickets c).a2r tickets (resStage tickets c).counter)[j]?
        = (tickets[j]?).map fun t =>
            leafTaskOf ("t" ++ natToDec ((resStage tickets c).counter + j + 1))
              (resStage tickets c).a2r t := by
      rw [← List.get?_eq_getElem?, ← List.get?_eq_getElem?]
      exact leafTasksFor_get? _ tickets _ j
    rw [hL, List.getElem?_eq_getElem hj]
    simp [leafTaskOf]
  refine ⟨?_, g5, (newStaffNames_nodup_disjoint tickets []).1, ?_, g4, ?_, ?_, ?_, ?_⟩
  · rw [← g2]
    rfl
  · intro x
    rw [newStaffNames_mem tickets [] x]
    simp
  · unfold leafStage
    rw [resolveDeps_length, hps, leafTasksFor_length]
    omega
  · intro ha
    rw [hleafget i hi, ha]
    simp
  · intro ha
    have hx : tickets[i].assignee ∈ newStaffNames tickets [] := by
      rw [newStaffNames_mem tickets []]
      exact ⟨by simp, ha, tickets[i], List.getElem_mem hi, rfl⟩
    have hx2 : tickets[i].assignee ∈ mapKeys (resStage tickets c).a2r := by
      rw [g1, g5]
      exact hx
    obtain ⟨v, hv⟩ := Option.isSome_iff_exists.1 ((mapGet_isSome_iff_mem_keys _ _).2 hx2)
    obtain ⟨r, hr, hrn, hri⟩ := g3 _ _ hv
    refine ⟨r, hr, hrn, ?_⟩
    rw [hleafget i hi, if_pos ha, hv, hri]
  · intro j hj ha
    rw [hleafget j hj, hleafget i hi, ha]

def w7s : Serializer := { projectName := "P" }

def w7tickets : List Ticket :=
  [{ key := "T1", assignee := "Alice" },
   { key := "T2" },
   { key := "T3", assignee := "Alice" }]

theorem claim_C7_witness :
    2 < w7tickets.length
    ∧ ((buildScenarioDoc w7s w7tickets [] [] [] 0).1.resources
        = ({ id := "r-1", name := w7s.projectName, type := "Project",
             childResources := (resStage w7tickets 0).staff.map
               (fun r => ({ idRef := r.id } : Reference)) } : Resource)
          :: (resStage w7tickets 0).staff
      ∧ (resStage w7tickets 0).staff.map (fun r => r.name) = newStaffNames w7tickets []
      ∧ (newStaffNames w7tickets []).Nodup
      ∧ (∀ x : String, x ∈ newStaffNames w7tickets []
          ↔ x ≠ "" ∧ ∃ t ∈ w7tickets, t.assignee = x)
      ∧ (∀ r : Resource, r ∈ (resStage w7tickets 0).staff →
          r.type = "Staff" ∧ r.childResources = [])
      ∧ (leafStage w7s w7tickets 0).length = w7tickets.length
      ∧ (w7tickets[2].assignee = "" →
          (leafStage w7s w7tickets 0)[2]?.map (fun t => t.assignments) = some [])
      ∧ (w7tickets[2].assignee ≠ "" →
          ∃ r ∈ (resStage w7tickets 0).staff, r.name = w7tickets[2].assignee
            ∧ (leafStage w7s w7tickets 0)[2]?.map (fun t => t.assignments)
                = some [{ idRef := r.id }])
      ∧ (∀ j : Nat, ∀ hj : j < w7tickets.length,
          w7tickets[j].assignee = w7tickets[2].assignee →
          (leafStage w7s w7tickets 0)[j]?.map (fun t => t.assignments)
            = (leafStage w7s w7tickets 0)[2]?.map fun t => t.assignments)) :=
  ⟨by decide, claim_C7 w7s w7tickets [] [] [] 0 2 (by decide)⟩

/-! ## Claim C6 -/

theorem epicTasksFor_ids (epics : List (String × Ticket))
    (ch : List (String × List Reference)) :
    ∀ (ks : List String) (c : Nat),
      (epicTasksFor epics ch ks c).map (fun t => t.id) = tidList c (2 * ks.length) := by
  intro ks
  induction ks with
  | nil => intro c; simp [epicTasksFor, tidList]
  | cons k ks ih =>
      intro c
      rw [epicTasksFor]
      have h2 : 2 * (k :: ks).length = (2 * ks.length + 1) + 1 := by
        simp
        omega
      rw [h2, tidList_succ, tidList_succ]
      simp only [List.map_cons, ih]
      have e1 : c + 1 + 1 = c + 2 := by omega
      rw [e1]
      rfl

theorem epicTasksFor_mem (epics : List (String × Ticket))
    (ch : List (String × List Reference)) :
    ∀ (ks : List String) (c : Nat) (t : PlanTask), t ∈ epicTasksFor epics ch ks c →
      ∃ i, ∃ hi : i < ks.length,
        t = epicGroupTask epics ch ks[i] (c + 2 * i) ∨ t = epicMsTask epics ks[i] (c + 2 * i) := by
  intro ks
  induction ks with
  | nil => intro c t h; simp [epicTasksFor] at h
  | cons k ks ih =>
      intro c t h
      rw [epicTasksFor] at h
      rcases List.mem_cons.1 h with rfl | h'
      · exact ⟨0, by simp, Or.inl (by simp)⟩
      rcases List.mem_cons.1 h' with rfl | h''
      · exact ⟨0, by simp, Or.inr (by simp)⟩
      · obtain ⟨i, hi, hor⟩ := ih (c + 2) t h''
        refine ⟨i + 1, by simpa using Nat.succ_lt_succ hi, ?_⟩
        have e1 : c + 2 + 2 * i = c + 2 * (i + 1) := by omega
        rw [e1] at hor
        simpa using hor

/-- All task ids of the emitted document. -/
def taskIds (doc : ScenarioDoc) : List String := doc.tasks.map fun t => t.id

/-- All resource ids of the emitted document. -/
def resourceIds (doc : ScenarioDoc) : List String := doc.resources.map fun r => r.id

/-- Referential integrity of a document: every prerequisite, child-task,
child-resource and assignment reference resolves to an emitted task or
resource, as do the top-task and top-resource references. -/
def WellFormedDoc (doc : ScenarioDoc) : Prop :=
  doc.topTask.idRef ∈ taskIds doc
  ∧ doc.topResource.idRef ∈ resourceIds doc
  ∧ (∀ t ∈ doc.tasks,
      (∀ r ∈ t.childTasks, r.idRef ∈ taskIds doc)
      ∧ (∀ p ∈ t.prerequisites, p.idRef ∈ taskIds doc)
      ∧ (∀ a ∈ t.assignments, a.idRef ∈ resourceIds doc))
  ∧ (∀ r ∈ doc.resources, ∀ cr ∈ r.childResources, cr.idRef ∈ resourceIds doc)

theorem doneBlock_refs (md gbe : Bool) (msord : List String)
    (ems : List (String × PlanTask)) (tsf : List PlanTask) (c : Nat) :
    (doneBlock md gbe msord ems tsf c).2.1
      = (doneBlock md gbe msord ems tsf c).1.map fun t => ({ idRef := t.id } : Reference) := by
  cases md
  · simp [doneBlock]
  · by_cases hdp : donePrereqsOf gbe msord ems tsf = [] <;> simp [doneBlock, hdp]

theorem doneBlock_mem (md gbe : Bool) (msord : List String)
    (ems : List (String × PlanTask)) (tsf : List PlanTask) (c : Nat)
    (t : PlanTask) (h : t ∈ (doneBlock md gbe msord ems tsf c).1) :
    t.childTasks = [] ∧ t.assignments = []
      ∧ t.prerequisites = donePrereqsOf gbe msord ems tsf := by
  cases md
  · simp [doneBlock] at h
  · by_cases hdp : donePrereqsOf gbe msord ems tsf = []
    · simp [doneBlock, hdp] at h
    · simp only [doneBlock, if_pos rfl] at h
      rw [if_pos hdp] at h
      rcases List.mem_singleton.1 h with rfl
      exact ⟨rfl, rfl, rfl⟩

theorem epicPass_milestonesM_values (epics : List (String × Ticket))
    (ch : List (String × List Reference)) :
    ∀ (ks : List String) (acc : EpicAcc) (k : String) (v : PlanTask),
      mapGet (epicPass epics ch ks acc).milestonesM k = some v →
      mapGet acc.milestonesM k = some v
        ∨ ∃ i, ∃ _hi : i < ks.length, v = epicMsTask epics k (acc.counter + 2 * i) := by
  intro ks
  induction ks with
  | nil => intro acc k v h; exact Or.inl h
  | cons k' ks ih =>
      intro acc k v h
      rw [epicPass] at h
      rcases ih _ k v h with h2 | ⟨i, hi, hv⟩
      · simp only at h2
        by_cases hk : k' = k
        · subst hk
          rw [mapGet_mapPut_self] at h2
          refine Or.inr ⟨0, by simp, ?_⟩
          cases h2
          rfl
        · rw [mapGet_mapPut_ne _ _ hk] at h2
          exact Or.inl h2
      · refine Or.inr ⟨i + 1, by simpa using Nat.succ_lt_succ hi, ?_⟩
        rw [hv]
        simp only []
        congr 1
        omega

theorem pass1_epicChildren_values (s : Serializer) (tickets : List Ticket) (c : Nat) :
    ∀ (k : String) (r : Reference),
      r ∈ (mapGet (p1Stage s tickets c).epicChildren k).getD [] →
      r.idRef ∈ tidList (resStage tickets c).counter tickets.length := by
  intro k r hr
  have hkeys : mapKeys (p1Stage s tickets c).epicChildren
      = epicKeysFor s.groupByEpic tickets [] := by
    unfold p1Stage pass1
    rw [leafPass_epicKeys]
    simp [leafAcc0, mapKeys]
  by_cases hk : k = ""
  · subst hk
    have hnm : "" ∉ mapKeys (p1Stage s tickets c).epicChildren := by
      rw [hkeys]
      intro hmem
      exact (epicKeysFor_mem _ tickets [] "" hmem).2.1 rfl
    rw [mapGet_eq_none_of_not_mem _ _ hnm] at hr
    simp at hr
  · cases hgbe : s.groupByEpic
    · have hkf : ∀ (ts : List Ticket) (seen : List String), epicKeysFor false ts seen = [] := by
        intro ts
        induction ts with
        | nil => intro seen; rfl
        | cons t ts ih =>
            intro seen
            rw [epicKeysFor, if_neg (by simp)]
            exact ih seen
      have : mapKeys (p1Stage s tickets c).epicChildren = [] := by
        rw [hkeys, hgbe, hkf]
      have hnm : k ∉ mapKeys (p1Stage s tickets c).epicChildren := by
        rw [this]; simp
      rw [mapGet_eq_none_of_not_mem _ _ hnm] at hr
      simp at hr
    · have hch : (mapGet (p1Stage s tickets c).epicChildren k).getD []
          = epicMembersFor tickets (resStage tickets c).counter k := by
        unfold p1Stage pass1
        rw [hgbe, leafPass_epicChildren_getD _ tickets (leafAcc0 _) k hk]
        simp [leafAcc0, mapGet]
      rw [hch] at hr
      exact epicMembersFor_sub k tickets _ r hr

theorem buildScenarioDoc_resources (s : Serializer) (tickets : List Ticket)
    (epics : List (String × Ticket)) (eord msord : List String) (c : Nat) :
    (buildScenarioDoc s tickets epics eord msord c).1.resources
      = ({ id := "r-1", name := s.projectName, type := "Project",
           childResources := (resStage tickets c).crefs } : Resource)
        :: (resStage tickets c).staff := rfl

/-- C6 (confirmed): in every built document, every identifier referenced
as a prerequisite, child task, child resource, assignment, top task or top
resource resolves to an emitted task or resource; unresolved dependency
keys contribute no reference at all (they are dropped with a warning,
never fabricated).  This holds for every map-visiting order, valid or
not. -/
theorem claim_C6 (s : Serializer) (tickets : List Ticket)
    (epics : List (String × Ticket)) (eord msord : List String) (c : Nat) :
    WellFormedDoc (buildScenarioDoc s tickets epics eord msord c).1 := by
  obtain ⟨g1, g2, g3, g4, g5, g6, g7⟩ := resStage_closed tickets c
  have hps : (p1Stage s tickets c).taskPtrs
      = leafTasksFor (resStage tickets c).a2r tickets (resStage tickets c).counter := by
    unfold p1Stage pass1
    rw [leafPass_taskPtrs]
    simp [leafAcc0]
  have hlid : (leafStage s tickets c).map (fun t => t.id)
      = tidList (resStage tickets c).counter tickets.length := by
    unfold leafStage
    rw [resolveDeps_ids _ _ _ (by rw [hps, leafTasksFor_length]), hps, leafTasksFor_ids]
  have htids : taskIds (buildScenarioDoc s tickets epics eord msord c).1
      = "t-1" :: (((epStage s tickets epics eord c).tasks).map (fun t => t.id)
          ++ ((dbStage s tickets epics eord msord c).1).map (fun t => t.id)
          ++ (leafStage s tickets c).map (fun t => t.id)) := by
    unfold taskIds
    rw [buildScenarioDoc_tasks, List.map_cons, btStage_fst]
    simp [List.map_append]
  have heid : ((epStage s tickets epics eord c).tasks).map (fun t => t.id)
      = (if s.groupByEpic then
          tidList (p1Stage s tickets c).counter (2 * eord.length) else []) := by
    unfold epStage
    rw [epicStage_tasks]
    cases s.groupByEpic
    · simp
    · simp [epicTasksFor_ids]
  have hresIds : resourceIds (buildScenarioDoc s tickets epics eord msord c).1
      = "r-1" :: (resStage tickets c).staff.map (fun r => r.id) := rfl
  have hinleaf : ∀ m : Nat, (resStage tickets c).counter < m →
      m ≤ (resStage tickets c).counter + tickets.length →
      ("t" ++ natToDec m) ∈ taskIds (buildScenarioDoc s tickets epics eord msord c).1 := by
    intro m h1 h2
    rw [htids]
    refine List.mem_cons_of_mem _ (List.mem_append.2 (Or.inr ?_))
    rw [hlid]
    exact (mem_tidList_iff _ _ m).2 ⟨h1, h2⟩
  have hintid : ∀ x : String,
      x ∈ tidList (resStage tickets c).counter tickets.length →
      x ∈ taskIds (buildScenarioDoc s tickets epics eord msord c).1 := by
    intro x hx
    rw [htids]
    refine List.mem_cons_of_mem _ (List.mem_append.2 (Or.inr ?_))
    rw [hlid]
    exact hx
  have hinepic : s.groupByEpic = true → ∀ m : Nat, (p1Stage s tickets c).counter < m →
      m ≤ (p1Stage s tickets c).counter + 2 * eord.length →
      ("t" ++ natToDec m) ∈ taskIds (buildScenarioDoc s tickets epics eord msord c).1 := by
    intro hg m h1 h2
    rw [htids]
    refine List.mem_cons_of_mem _
      (List.mem_append.2 (Or.inl (List.mem_append.2 (Or.inl ?_))))
    rw [heid, hg]
    simp only [if_pos rfl]
    exact (mem_tidList_iff _ _ m).2 ⟨h1, h2⟩
  have hindone : ∀ t ∈ (dbStage s tickets epics eord msord c).1,
      t.id ∈ taskIds (buildScenarioDoc s tickets epics eord msord c).1 := by
    intro t ht
    rw [htids]
    refine List.mem_cons_of_mem _
      (List.mem_append.2 (Or.inl (List.mem_append.2 (Or.inr ?_))))
    exact List.mem_map_of_mem _ ht
  have hinstaff : ∀ rid, rid ∈ (resStage tickets c).staff.map (fun r => r.id) →
      rid ∈ resourceIds (buildScenarioDoc s tickets epics eord msord c).1 := by
    intro rid h
    rw [hresIds]
    exact List.mem_cons_of_mem _ h
  have hkm : ∀ d v, mapGet (p1Stage s tickets c).keyToTask d = some v →
      ∃ j, j < tickets.length ∧ v = "t" ++ natToDec ((resStage tickets c).counter + j + 1) := by
    intro d v hv
    unfold p1Stage pass1 at hv
    rcases leafPass_keyToTask_some s.groupByEpic _ tickets (leafAcc0 _) d v hv with h | h
    · simp [leafAcc0, mapGet] at h
    · obtain ⟨j, hj, _, hval⟩ := h
      exact ⟨j, hj, by simpa [leafAcc0] using hval⟩
  have hleafassign : ∀ t0 : Ticket, ∀ tid,
      ∀ a ∈ (leafTaskOf tid (resStage tickets c).a2r t0).assignments,
      a.idRef ∈ resourceIds (buildScenarioDoc s tickets epics eord msord c).1 := by
    intro t0 tid a ha
    unfold leafTaskOf at ha
    simp only at ha
    split at ha
    · rename_i hne
      cases hv : mapGet (resStage tickets c).a2r t0.assignee with
      | none => rw [hv] at ha; simp at ha
      | some rid =>
          rw [hv] at ha
          rcases List.mem_singleton.1 ha with rfl
          obtain ⟨r, hr, _, hri⟩ := g3 _ _ hv
          refine hinstaff rid ?_
          rw [← hri]
          exact List.mem_map_of_mem _ hr
    · simp at ha
  refine ⟨?_, ?_, ?_, ?_⟩
  · show "t-1" ∈ _
    rw [htids]
    exact List.mem_cons_self _ _
  · show "r-1" ∈ _
    rw [hresIds]
    exact List.mem_cons_self _ _
  · intro t ht
    rw [buildScenarioDoc_tasks] at ht
    rcases List.mem_cons.1 ht with rfl | ht1
    · -- the synthetic root
      refine ⟨?_, by simp, by simp⟩
      intro r hr
      simp only at hr
      have hroot : (btStage s tickets epics eord msord c).2.1
          = topRefsFor s.groupByEpic tickets (resStage tickets c).counter
            ++ ((if s.groupByEpic then
                (epicTasksFor epics (p1Stage s tickets c).epicChildren eord
                  (p1Stage s tickets c).counter).map (fun t => ({ idRef := t.id } : Reference))
              else [])
            ++ (dbStage s tickets epics eord msord c).2.1) := by
        unfold btStage dbStage epStage p1Stage
        rw [buildTasksFromTickets_eq]
        simp only []
        rw [epicStage_refs]
        unfold pass1
        rw [leafPass_refs]
        simp [leafAcc0, List.append_assoc]
      rw [hroot] at hr
      rcases List.mem_append.1 hr with h | h
      · exact hintid _ (topRefsFor_sub s.groupByEpic tickets _ r h)
      rcases List.mem_append.1 h with h | h
      · split at h
        · rename_i hg
          simp only [List.mem_map] at h
          obtain ⟨tsk, htsk, rfl⟩ := h
          have hmem := epicTasksFor_mem epics _ eord _ tsk htsk
          obtain ⟨i, hi, hor⟩ := hmem
          rcases hor with rfl | rfl
          · exact hinepic hg _ (by omega) (by omega)
          · exact hinepic hg _ (by omega) (by omega)
        · simp at h
      · unfold dbStage at h
        rw [doneBlock_refs] at h
        simp only [List.mem_map] at h
        obtain ⟨tsk, htsk, rfl⟩ := h
        exact hindone tsk htsk
    · rw [btStage_fst] at ht1
      rcases List.mem_append.1 ht1 with ht2 | htleaf
      rcases List.mem_append.1 ht2 with htep | htdb
      · -- an epic group or milestone task
        have hepics : (epStage s tickets epics eord c).tasks
            = if s.groupByEpic then
                epicTasksFor epics (p1Stage s tickets c).epicChildren eord
                  (p1Stage s tickets c).counter else [] := by
          unfold epStage
          rw [epicStage_tasks]
        rw [hepics] at htep
        split at htep
        · rename_i hg
          obtain ⟨i, hi, hor⟩ := epicTasksFor_mem epics _ eord _ t htep
          rcases hor with rfl | rfl
          · refine ⟨?_, by simp [epicGroupTask], by simp [epicGroupTask]⟩
            intro r hr
            exact hintid _ (pass1_epicChildren_values s tickets c eord[i] r
              (by simpa [epicGroupTask] using hr))
          · refine ⟨by simp [epicMsTask], ?_, by simp [epicMsTask]⟩
            intro p hp
            simp only [epicMsTask] at hp
            rcases List.mem_singleton.1 hp with rfl
            exact hinepic hg _ (by omega) (by omega)
        · simp at htep
      · -- the Done milestone
        obtain ⟨hct, has, hpr⟩ := doneBlock_mem _ _ _ _ _ _ t htdb
        refine ⟨by rw [hct]; simp, ?_, by rw [has]; simp⟩
        intro p hp
        rw [hpr] at hp
        unfold donePrereqsOf at hp
        rcases Bool.eq_false_or_eq_true s.groupByEpic with hgb | hgb
        case inr =>
          rw [hgb] at hp
          simp only [if_neg (Bool.false_ne_true)] at hp
          have htsf : (epStage s tickets epics eord c).tasks = [] := by
            unfold epStage
            rw [epicStage_tasks, hgb]
            simp
          rw [htsf] at hp
          exact absurd hp (by simp)
        case inl =>
          rw [hgb] at hp
          simp at hp
          obtain ⟨k, hk, tms, hget, hv⟩ := hp
          have hems : (epStage s tickets epics eord c).milestonesM
              = (epicPass epics (p1Stage s tickets c).epicChildren eord
                  { tasks := [], refs := (p1Stage s tickets c).refs, milestonesM := [],
                    counter := (p1Stage s tickets c).counter }).milestonesM := by
            unfold epStage
            rw [hgb, epicStage_true]
          rw [hems] at hget
          rcases epicPass_milestonesM_values epics _ eord _ k tms hget with h0 | h0
          · simp [mapGet] at h0
          · obtain ⟨i, hi, rfl⟩ := h0
            rw [← hv]
            show ("t" ++ natToDec ((p1Stage s tickets c).counter + 2 * i + 2)) ∈ _
            exact hinepic hgb _ (by omega) (by omega)
      · -- a leaf task
        obtain ⟨t0, _, task0, htask0, rfl⟩ := resolveDeps_mem _ tickets _ t htleaf
        rw [hps] at htask0
        obtain ⟨tid, t1, _, rfl⟩ := leafTasksFor_mem _ tickets _ task0 htask0
        refine ⟨by simp [leafTaskOf], ?_, ?_⟩
        · intro p hp
          simp only [leafTaskOf] at hp
          rcases List.mem_append.1 hp with h | h
          · simp at h
          · unfold resolvedPrereqs at h
            simp only [List.mem_filterMap] at h
            obtain ⟨d, _, hd⟩ := h
            cases hgetd : mapGet (p1Stage s tickets c).keyToTask d with
            | none => rw [hgetd] at hd; simp at hd
            | some v =>
                rw [hgetd] at hd
                simp only [Option.map_some', Option.some.injEq] at hd
                obtain ⟨j, hj, rfl⟩ := hkm d v hgetd
                rw [← hd]
                exact hinleaf _ (by omega) (by omega)
        · intro a ha
          exact hleafassign t1 tid a (by simpa using ha)
  · intro r hr
    rw [buildScenarioDoc_resources] at hr
    rcases List.mem_cons.1 hr with rfl | hstaff
    · intro cr hcr
      simp only at hcr
      rw [g2] at hcr
      simp only [List.mem_map] at hcr
      obtain ⟨r0, hr0, rfl⟩ := hcr
      exact hinstaff r0.id (List.mem_map_of_mem _ hr0)
    · intro cr hcr
      rw [(g4 r hstaff).2] at hcr
      simp at hcr

/-! ## Claim C9 -/

theorem mem_tidList_elim {x : String} {c n : Nat} (h : x ∈ tidList c n) :
    ∃ m, x = "t" ++ natToDec m ∧ c < m ∧ m ≤ c + n := by
  unfold tidList at h
  simp only [List.mem_map, List.mem_range] at h
  obtain ⟨i, hi, rfl⟩ := h
  exact ⟨c + i + 1, rfl, by omega, by omega⟩

theorem mem_ridList_elim {x : String} {c n : Nat} (h : x ∈ ridList c n) :
    ∃ m, x = "r" ++ natToDec m ∧ c < m ∧ m ≤ c + n := by
  unfold ridList at h
  simp only [List.mem_map, List.mem_range] at h
  obtain ⟨i, hi, rfl⟩ := h
  exact ⟨c + i + 1, rfl, by omega, by omega⟩

theorem rid_ne_troot (n : Nat) : "r" ++ natToDec n ≠ "t-1" := by
  intro h
  have hd := congrArg String.data h
  rw [String.data_append] at hd
  exact absurd (List.head_eq_of_cons_eq hd) (by decide)

theorem tid_ne_rroot (n : Nat) : "t" ++ natToDec n ≠ "r-1" := by
  intro h
  have hd := congrArg String.data h
  rw [String.data_append] at hd
  exact absurd (List.head_eq_of_cons_eq hd) (by decide)

theorem tidList_append_nodup (a p b q : Nat) (h : a + p ≤ b) :
    (tidList a p ++ tidList b q).Nodup := by
  rw [List.nodup_append]
  refine ⟨tidList_nodup a p, tidList_nodup b q, ?_⟩
  intro x hx hx'
  obtain ⟨m, rfl, h1, h2⟩ := mem_tidList_elim hx
  obtain ⟨m', he, h1', h2'⟩ := mem_tidList_elim hx'
  have := prefixed_dec_inj he
  omega

theorem doneBlock_ids (md gbe : Bool) (msord : List String)
    (ems : List (String × PlanTask)) (tsf : List PlanTask) (c : Nat) :
    (doneBlock md gbe msord ems tsf c).1.map (fun t => t.id) = []
      ∨ (doneBlock md gbe msord ems tsf c).1.map (fun t => t.id)
          = ["t" ++ natToDec (c + 1)] := by
  cases md
  · left; simp [doneBlock]
  · by_cases hdp : donePrereqsOf gbe msord ems tsf = []
    · left; simp [doneBlock, hdp]
    · right; simp [doneBlock, hdp]

/-- With grouping off, the Done stage emits nothing: the milestone scan
runs over the (empty) epic-task list. -/
theorem dbStage_nil_of_not_gbe (s : Serializer) (tickets : List Ticket)
    (epics : List (String × Ticket)) (eord msord : List String) (c : Nat)
    (hg : s.groupByEpic = false) :
    (dbStage s tickets epics eord msord c).1 = [] ∧
    (dbStage s tickets epics eord msord c).2.2 = (epStage s tickets epics eord c).counter := by
  have htsf : (epStage s tickets epics eord c).tasks = [] := by
    unfold epStage
    rw [epicStage_tasks, hg]
    simp
  unfold dbStage
  rw [htsf]
  have hdp : donePrereqsOf s.groupByEpic msord (epStage s tickets epics eord c).milestonesM []
      = [] := by
    unfold donePrereqsOf
    rw [hg]
    simp
  cases hmd : s.milestoneDone
  · simp [doneBlock]
  · simp [doneBlock, hdp]

/-- C9 (confirmed): the generator returns a distinct string on every call
(distinct counter states give distinct ids), and all identifiers of one
emitted document — the scenario id, every task id including the fixed root
`t-1`, and every resource id including the fixed root `r-1` — are pairwise
distinct. -/
theorem claim_C9 (s : Serializer) (tickets : List Ticket)
    (epics : List (String × Ticket)) (eord msord : List String) (c : Nat) :
    (∀ a b : Nat, a ≠ b → (GenerateID a).1 ≠ (GenerateID b).1)
    ∧ ((buildScenarioDoc s tickets epics eord msord c).1.id
        :: (taskIds (buildScenarioDoc s tickets epics eord msord c).1
          ++ resourceIds (buildScenarioDoc s tickets epics eord msord c).1)).Nodup := by
  obtain ⟨g1, g2, g3, g4, g5, g6, g7⟩ := resStage_closed tickets c
  have hps : (p1Stage s tickets c).taskPtrs
      = leafTasksFor (resStage tickets c).a2r tickets (resStage tickets c).counter := by
    unfold p1Stage pass1
    rw [leafPass_taskPtrs]
    simp [leafAcc0]
  have hlid : (leafStage s tickets c).map (fun t => t.id)
      = tidList (resStage tickets c).counter tickets.length := by
    unfold leafStage
    rw [resolveDeps_ids _ _ _ (by rw [hps, leafTasksFor_length]), hps, leafTasksFor_ids]
  have htids : taskIds (buildScenarioDoc s tickets epics eord msord c).1
      = "t-1" :: (((epStage s tickets epics eord c).tasks).map (fun t => t.id)
          ++ ((dbStage s tickets epics eord msord c).1).map (fun t => t.id)
          ++ (leafStage s tickets c).map (fun t => t.id)) := by
    unfold taskIds
    rw [buildScenarioDoc_tasks, List.map_cons, btStage_fst]
    simp [List.map_append]
  have heid : ((epStage s tickets epics eord c).tasks).map (fun t => t.id)
      = (if s.groupByEpic then
          tidList (p1Stage s tickets c).counter (2 * eord.length) else []) := by
    unfold epStage
    rw [epicStage_tasks]
    cases s.groupByEpic
    · simp
    · simp [epicTasksFor_ids]
  have hc1 : (p1Stage s tickets c).counter
      = (resStage tickets c).counter + tickets.length := by
    unfold p1Stage pass1
    rw [leafPass_counter]
    simp [leafAcc0]
  have hcEp : (epStage s tickets epics eord c).counter
      = (if s.groupByEpic then
          (p1Stage s tickets c).counter + 2 * eord.length
        else (p1Stage s tickets c).counter) := by
    unfold epStage
    rw [epicStage_counter]
  have hresIds : resourceIds (buildScenarioDoc s tickets epics eord msord c).1
      = "r-1" :: (resStage tickets c).staff.map (fun r => r.id) := rfl
  have hsid : (resStage tickets c).staff.map (fun r => r.id)
      = ridList (GenerateID c).2 (newStaffNames tickets []).length := by
    rw [g6]
    simp
  have hscen : (buildScenarioDoc s tickets epics eord msord c).1.id
      = "gen" ++ natToDec (c + 1) := rfl
  -- shorthand for the numeric task-id segments
  set cr := (resStage tickets c).counter with hcr
  set n := tickets.length
  set c1 := (p1Stage s tickets c).counter with hc1def
  set e := eord.length
  -- the task-number ids are pairwise distinct
  have htaskNums : (((epStage s tickets epics eord c).tasks).map (fun t => t.id)
      ++ ((dbStage s tickets epics eord msord c).1).map (fun t => t.id)
      ++ (leafStage s tickets c).map (fun t => t.id)).Nodup
      ∧ ∀ x ∈ (((epStage s tickets epics eord c).tasks).map (fun t => t.id)
          ++ ((dbStage s tickets epics eord msord c).1).map (fun t => t.id)
          ++ (leafStage s tickets c).map (fun t => t.id)),
        ∃ m, x = "t" ++ natToDec m ∧ cr < m := by
    have hdid := doneBlock_ids s.milestoneDone s.groupByEpic msord
      (epStage s tickets epics eord c).milestonesM (epStage s tickets epics eord c).tasks
      (epStage s tickets epics eord c).counter
    have hdb : ((dbStage s tickets epics eord msord c).1).map (fun t => t.id) = []
        ∨ ((dbStage s tickets epics eord msord c).1).map (fun t => t.id)
          = ["t" ++ natToDec ((epStage s tickets epics eord c).counter + 1)] := hdid
    rcases Bool.eq_false_or_eq_true s.groupByEpic with hg | hg
    · have hE : ((epStage s tickets epics eord c).tasks).map (fun t => t.id)
          = tidList c1 (2 * e) := by
        rw [heid, hg]
        simp
      have hcEp' : (epStage s tickets epics eord c).counter = c1 + 2 * e := by
        rw [hcEp, hg]
        simp
      rw [hE, hlid]
      rcases hdb with hD | hD
      · rw [hD]
        constructor
        · simp only [List.append_nil]
          have : (tidList cr n ++ tidList c1 (2 * e)).Nodup :=
            tidList_append_nodup cr n c1 (2 * e) (by omega)
          rw [List.nodup_append] at this ⊢
          obtain ⟨ha, hb, hdisj⟩ := this
          exact ⟨hb, ha, fun x hx hx' => hdisj hx' hx⟩
        · intro x hx
          simp only [List.append_nil] at hx
          rcases List.mem_append.1 hx with h | h
          · obtain ⟨m, rfl, h1, _⟩ := mem_tidList_elim h
            exact ⟨m, rfl, by omega⟩
          · obtain ⟨m, rfl, h1, _⟩ := mem_tidList_elim h
            exact ⟨m, rfl, by omega⟩
      · rw [hD, hcEp']
        constructor
        · rw [List.nodup_append]
          refine ⟨?_, tidList_nodup cr n, ?_⟩
          · rw [List.nodup_append]
            refine ⟨tidList_nodup c1 (2 * e), List.nodup_singleton _, ?_⟩
            intro x hx hx'
            obtain ⟨m, rfl, h1, h2⟩ := mem_tidList_elim hx
            rcases List.mem_singleton.1 hx' with he
            have := prefixed_dec_inj he
            omega
          · intro x hx hx'
            rcases List.mem_append.1 hx with h | h
            · obtain ⟨m, rfl, h1, h2⟩ := mem_tidList_elim h
              obtain ⟨m', he, h1', h2'⟩ := mem_tidList_elim hx'
              have := prefixed_dec_inj he
              omega
            · rcases List.mem_singleton.1 h with rfl
              obtain ⟨m', he, h1', h2'⟩ := mem_tidList_elim hx'
              have := prefixed_dec_inj he
              omega
        · intro x hx
          rcases List.mem_append.1 hx with h | h
          · rcases List.mem_append.1 h with h' | h'
            · obtain ⟨m, rfl, h1, _⟩ := mem_tidList_elim h'
              exact ⟨m, rfl, by omega⟩
            · rcases List.mem_singleton.1 h' with rfl
              exact ⟨c1 + 2 * e + 1, rfl, by omega⟩
          · obtain ⟨m, rfl, h1, _⟩ := mem_tidList_elim h
            exact ⟨m, rfl, by omega⟩
    · -- not grouping: no epic ids, no done ids
      have hE : ((epStage s tickets epics eord c).tasks).map (fun t => t.id) = [] := by
        rw [heid, hg]
        simp
      have hD : ((dbStage s tickets epics eord msord c).1).map (fun t => t.id) = [] := by
        rw [(dbStage_nil_of_not_gbe s tickets epics eord msord c hg).1]
        simp
      rw [hE, hD, hlid]
      constructor
      · simp [tidList_nodup]
      · intro x hx
        simp only [List.nil_append] at hx
        obtain ⟨m, rfl, h1, _⟩ := mem_tidList_elim hx
        exact ⟨m, rfl, h1⟩
  obtain ⟨hTnodup, hTshape⟩ := htaskNums
  constructor
  · intro a b hab h
    exact hab (by
      have := prefixed_dec_inj (p := "gen") h
      omega)
  · rw [hscen, htids, hresIds, hsid]
    refine List.nodup_cons.2 ⟨?_, ?_⟩
    · -- the scenario id differs from every task and resource id
      intro hmem
      rcases List.mem_append.1 hmem with h | h
      · rcases List.mem_cons.1 h with h' | h'
        · exact gen_ne_troot (c + 1) h'
        · obtain ⟨m, he, _⟩ := hTshape _ h'
          exact gen_ne_tid (c + 1) m he
      · rcases List.mem_cons.1 h with h' | h'
        · exact gen_ne_rroot (c + 1) h'
        · obtain ⟨m, he, _, _⟩ := mem_ridList_elim h'
          exact gen_ne_rid (c + 1) m he
    · rw [List.nodup_append]
      refine ⟨?_, ?_, ?_⟩
      · -- task ids are distinct
        refine List.nodup_cons.2 ⟨?_, hTnodup⟩
        intro hmem
        obtain ⟨m, he, _⟩ := hTshape _ hmem
        exact tid_ne_root m he.symm
      · -- resource ids are distinct
        refine List.nodup_cons.2 ⟨?_, ridList_nodup _ _⟩
        intro hmem
        obtain ⟨m, he, _, _⟩ := mem_ridList_elim hmem
        exact rid_ne_root m he.symm
      · -- no task id collides with a resource id
        intro x hx hx'
        rcases List.mem_cons.1 hx with rfl | hx1
        · rcases List.mem_cons.1 hx' with h' | h'
          · exact absurd h' (by decide)
          · obtain ⟨m, he, _, _⟩ := mem_ridList_elim h'
            exact rid_ne_troot m he.symm
        · obtain ⟨m, he, _⟩ := hTshape _ hx1
          rcases List.mem_cons.1 hx' with h' | h'
          · rw [he] at h'
            exact tid_ne_rroot m h'
          · obtain ⟨m', he', _, _⟩ := mem_ridList_elim h'
            rw [he] at he'
            exact tid_ne_rid m m' he'
